import Mathlib

/-!
Verification of the sqlc-gen-typescript driver codegen engine.

This file gives a shallow embedding of the TypeScript source under `src/`:
the enum catalog builder, the type mapper of each driver variant, the
uniqueness validator, the positional-parameter rewriter, the `:one`
declaration body semantics, and the per-file assembly of `app.ts`
(`codegen`, `printNode`).  Each definition is translated from the named
source function; the two identifier helpers `argName`/`colName` live in
`src/drivers/utils.ts`, which is absent from the source snapshot, and are
modelled from the spec where noted.
-/

namespace SqlcTs

/-! ### String helpers (JS semantics) -/

/-- `needle` occurs as a contiguous substring of `hay`
(JS `String.prototype.includes`). -/
def strContains (hay needle : String) : Prop :=
  needle.toList <:+: hay.toList

instance (hay needle : String) : Decidable (strContains hay needle) := by
  unfold strContains; infer_instance

/-- `p` is a prefix of `s` (JS `String.prototype.startsWith`). -/
def strStarts (s p : String) : Prop :=
  p.toList <+: s.toList

instance (s p : String) : Decidable (strStarts s p) := by
  unfold strStarts; infer_instance

theorem toList_append (a b : String) : (a ++ b).toList = a.toList ++ b.toList := rfl

theorem strContains_refl (a : String) : strContains a a :=
  ⟨[], [], by simp⟩

theorem strContains_append_left {a n : String} (h : strContains a n) (b : String) :
    strContains (a ++ b) n := by
  obtain ⟨s, t, hst⟩ := h
  exact ⟨s, t ++ b.toList, by rw [toList_append, ← hst]; simp⟩

theorem strContains_append_right {b n : String} (h : strContains b n) (a : String) :
    strContains (a ++ b) n := by
  obtain ⟨s, t, hst⟩ := h
  exact ⟨a.toList ++ s, t, by rw [toList_append, ← hst]; simp⟩

theorem strContains_middle (a b c : String) : strContains (a ++ b ++ c) b :=
  strContains_append_left (strContains_append_right (strContains_refl b) a) c

theorem strStarts_append (a b : String) : strStarts (a ++ b) a :=
  ⟨b.toList, by rw [toList_append]⟩

theorem strStarts_trans {a b c : String} (h₁ : strStarts b a) (h₂ : strStarts c b) :
    strStarts c a :=
  List.IsPrefix.trans h₁ h₂

/-! ### JS `Map` and insertion-ordered `Set` model

A JS `Map` keeps entries in key-insertion order; `set` on an existing key
overwrites the value in place, and `get` returns the stored value. -/

/-- A JS `Map<string, α>` as an insertion-ordered association list. -/
abbrev JsMap (α : Type) := List (String × α)

/-- `Map.prototype.set`: overwrite the value at an existing key (keeping its
position), else append a fresh entry. -/
def mapSet (m : JsMap α) (k : String) (v : α) : JsMap α :=
  if m.any (fun p => p.1 = k) then
    m.map (fun p => if p.1 = k then (k, v) else p)
  else
    m ++ [(k, v)]

/-- `Map.prototype.get` (`none` = `undefined`). -/
def mapGet (m : JsMap α) (k : String) : Option α :=
  (m.find? (fun p => p.1 = k)).map (fun p => p.2)

/-- `Map.prototype.has`. -/
def mapHas (m : JsMap α) (k : String) : Bool :=
  m.any (fun p => p.1 = k)

theorem find?_map_update (m : JsMap α) (k k' : String) (v : α) :
    (List.find? (fun p => p.1 = k')
        (m.map (fun p => if p.1 = k then (k, v) else p))).map (fun p => p.2) =
      if k' = k then
        (if m.any (fun p => p.1 = k) then some v else none)
      else
        (m.find? (fun p => p.1 = k')).map (fun p => p.2) := by
  induction m with
  | nil => by_cases hk' : k' = k <;> simp [hk']
  | cons p ps ih =>
    by_cases hp : p.1 = k
    · by_cases hk' : k' = k
      · subst hk'
        simp only [List.map_cons, if_pos hp, List.any_cons]
        rw [List.find?_cons_of_pos _ (by simp)]
        simp [hp]
      · have h1 : ¬ k = k' := fun h => hk' h.symm
        have hpk' : ¬ p.1 = k' := by rw [hp]; exact h1
        simp only [List.map_cons, if_pos hp]
        rw [List.find?_cons_of_neg _ (by simp [h1]),
          List.find?_cons_of_neg _ (by simp [hpk']), ih, if_neg hk', if_neg hk']
    · have hu : (if p.1 = k then (k, v) else p) = p := if_neg hp
      by_cases hpk' : p.1 = k'
      · have hk' : ¬ k' = k := fun h => hp (h ▸ hpk')
        simp only [List.map_cons, hu]
        rw [List.find?_cons_of_pos _ (by simp [hpk']),
          List.find?_cons_of_pos _ (by simp [hpk']), if_neg hk']
      · simp only [List.map_cons, hu]
        rw [List.find?_cons_of_neg _ (by simp [hpk']),
          List.find?_cons_of_neg _ (by simp [hpk']), ih]
        by_cases hk' : k' = k
        · rw [if_pos hk', if_pos hk']
          have hb : decide (p.1 = k) = false := by simp [hp]
          rw [List.any_cons, hb, Bool.false_or]
        · rw [if_neg hk', if_neg hk']

theorem mapGet_mapSet (m : JsMap α) (k k' : String) (v : α) :
    mapGet (mapSet m k v) k' = if k' = k then some v else mapGet m k' := by
  unfold mapSet mapGet
  by_cases hmem : m.any (fun p => p.1 = k)
  · rw [if_pos hmem, find?_map_update, hmem]
    simp
  · rw [if_neg hmem, List.find?_append]
    have hnone : m.find? (fun p => p.1 = k) = none := by
      rw [List.find?_eq_none]
      intro x hx
      simp only [decide_eq_true_eq]
      intro hxk
      exact hmem (List.any_eq_true.mpr ⟨x, hx, by simpa using hxk⟩)
    by_cases hk' : k' = k
    · subst hk'
      rw [hnone, if_pos rfl]
      simp
    · rw [if_neg hk']
      cases hf : m.find? (fun p => p.1 = k') with
      | some q => simp
      | none =>
        have hkk : ¬ k = k' := fun h => hk' h.symm
        simp [hkk]

/-- A JS `Set<string>` as an insertion-ordered duplicate-free list. -/
def setAdd (s : List String) (x : String) : List String :=
  if x ∈ s then s else s ++ [x]

/-! ### Data model (protobuf messages from `gen/plugin/codegen_pb`) -/

/-- The `type` message of a column: a (possibly schema-qualified) name. -/
structure PgType where
  name : String
  deriving DecidableEq, Repr

/-- A result column or parameter column. -/
structure Column where
  name : String
  notNull : Bool
  isArray : Bool
  arrayDims : Int
  typ : Option PgType
  deriving DecidableEq, Repr

/-- A positional query parameter (its `number` field is unused by the code). -/
structure Parameter where
  column : Option Column
  deriving DecidableEq, Repr

/-- An enum definition: bare name and ordered values. -/
structure EnumDef where
  name : String
  vals : List String
  deriving DecidableEq, Repr

/-- A catalog schema. -/
structure Schema where
  name : String
  enums : List EnumDef
  deriving DecidableEq, Repr

/-- The catalog. -/
structure Catalog where
  defaultSchema : String
  schemas : List Schema
  deriving DecidableEq, Repr

/-- A parsed query as delivered by sqlc. -/
structure Query where
  filename : String
  name : String
  cmd : String
  text : String
  params : List Parameter
  columns : List Column
  deriving DecidableEq, Repr

/-- The serialized request (`GenerateRequest`). -/
structure GenerateRequest where
  catalog : Option Catalog
  queries : List Query
  deriving DecidableEq, Repr

/-! ### Enum catalog builder (`buildEnumMap`, app.ts) -/

/-- `buildEnumMap` from `app.ts`: walk every schema except the system
schemas; register every enum under its bare name, and additionally under
`schema.name` when the schema is not the default schema.  `Map.set`
overwrites on key collision. -/
def buildEnumMap (input : GenerateRequest) : JsMap EnumDef :=
  let defaultSchema := match input.catalog with
    | some c => c.defaultSchema
    | none => "public"
  let schemas := match input.catalog with
    | some c => c.schemas
    | none => []
  schemas.foldl (fun m schema =>
    if schema.name = "pg_catalog" ∨ schema.name = "information_schema" then m
    else schema.enums.foldl (fun m enumDef =>
      let m := mapSet m enumDef.name enumDef
      if schema.name ≠ defaultSchema then
        mapSet m (schema.name ++ "." ++ enumDef.name) enumDef
      else m) m) []

/-- The sequence of `(key, enum)` pairs passed to `Map.set` by
`buildEnumMap`, in execution order. -/
def enumRegistrations (input : GenerateRequest) : List (String × EnumDef) :=
  let defaultSchema := match input.catalog with
    | some c => c.defaultSchema
    | none => "public"
  let schemas := match input.catalog with
    | some c => c.schemas
    | none => []
  schemas.flatMap (fun schema =>
    if schema.name = "pg_catalog" ∨ schema.name = "information_schema" then []
    else schema.enums.flatMap (fun enumDef =>
      (enumDef.name, enumDef) ::
        (if schema.name ≠ defaultSchema then
          [(schema.name ++ "." ++ enumDef.name, enumDef)]
        else [])))

theorem mapGet_foldl_mapSet (regs : List (String × EnumDef)) (m₀ : JsMap EnumDef)
    (k : String) :
    mapGet (regs.foldl (fun m p => mapSet m p.1 p.2) m₀) k =
      match regs.reverse.find? (fun p => p.1 = k) with
      | some p => some p.2
      | none => mapGet m₀ k := by
  induction regs generalizing m₀ with
  | nil => simp
  | cons p ps ih =>
    simp only [List.foldl_cons, List.reverse_cons, ih, List.find?_append]
    cases hf : ps.reverse.find? (fun q => q.1 = k) with
    | some q => simp
    | none =>
      by_cases hk : p.1 = k
      · simp [hk, mapGet_mapSet]
      · have hkp : ¬ k = p.1 := fun h => hk h.symm
        simp [hk, mapGet_mapSet, hkp]

theorem buildEnumMap_eq_foldl (input : GenerateRequest) :
    buildEnumMap input =
      (enumRegistrations input).foldl (fun m p => mapSet m p.1 p.2) [] := by
  unfold buildEnumMap enumRegistrations
  generalize (match input.catalog with
    | some c => c.defaultSchema
    | none => "public") = ds
  generalize (match input.catalog with
    | some c => c.schemas
    | none => []) = schemas
  induction schemas using List.reverseRecOn with
  | nil => simp
  | append_singleton ss s ih =>
    simp only [List.foldl_append, List.flatMap_append, List.foldl_cons, List.foldl_nil,
      List.flatMap_cons, List.flatMap_nil, List.append_nil, ih]
    by_cases hs : s.name = "pg_catalog" ∨ s.name = "information_schema"
    · simp [hs]
    · simp only [hs, if_false]
      generalize (ss.flatMap _).foldl _ ([] : JsMap EnumDef) = m₀
      induction s.enums generalizing m₀ with
      | nil => simp
      | cons e es ihe =>
        simp only [List.foldl_cons, List.flatMap_cons, List.foldl_append, ihe]
        by_cases hd : s.name ≠ ds <;> simp [hd]

/-- Lookup in the built enum map returns the value of the **last**
registration of that key. -/
theorem buildEnumMap_get (input : GenerateRequest) (k : String) :
    mapGet (buildEnumMap input) k =
      ((enumRegistrations input).reverse.find? (fun p => p.1 = k)).map
        (fun p => p.2) := by
  rw [buildEnumMap_eq_foldl, mapGet_foldl_mapSet]
  cases h : (enumRegistrations input).reverse.find? (fun p => p.1 = k) <;>
    simp [mapGet]

/-! ### TypeScript type nodes -/

/-- The TypeScript type nodes the drivers build.  `union2 t nullLit` stands
for `factory.createUnionTypeNode([t, null-literal])`; `unionStr vals` for the
union of string-literal types built by `enumTypeDecl`. -/
inductive TSType where
  | any
  | str
  | num
  | boolean
  | voidKw
  | nullLit
  | ref (name : String)
  | array (t : TSType)
  | union2 (a b : TSType)
  | unionStr (vals : List String)
  deriving DecidableEq, Repr

/-- JS `toLowerCase` (ASCII-adequate), at the character-list level so that
it evaluates by kernel reduction. -/
def jsToLower (s : String) : String :=
  String.mk (s.toList.map Char.toLower)

/-- Strip a leading `pg_catalog.` qualifier: `typeName.startsWith("pg_catalog.")`
is a case-sensitive prefix test, and `slice(11)` drops it. -/
def stripPgCatalog (s : String) : String :=
  if "pg_catalog.".toList <+: s.toList then String.mk (s.toList.drop 11) else s

/-- `column.isArray || column.arrayDims > 0` from the sources. -/
def jsArrayFlag (c : Column) : Bool :=
  c.isArray || c.arrayDims > 0

/-- `Math.max(column.arrayDims || 1)` (single-argument `Math.max` is the
identity) followed by the `for (let i = 0; i < dims; i++)` loop count:
a non-positive `dims` runs the loop zero times. -/
def jsDims (c : Column) : Nat :=
  (if c.arrayDims = 0 then 1 else c.arrayDims).toNat

/-- Wrap a type in `n` levels of `factory.createArrayTypeNode`. -/
def wrapArray : Nat → TSType → TSType
  | 0, t => t
  | n + 1, t => TSType.array (wrapArray n t)

/-- The common array-wrapping tail of every postgres `columnType`. -/
def applyArrayWrap (c : Column) (t : TSType) : TSType :=
  if jsArrayFlag c then wrapArray (jsDims c) t else t

/-- The common nullability tail: `if (column.notNull) return typ;
return union([typ, null])`. -/
def applyNull (c : Column) (t : TSType) : TSType :=
  if c.notNull then t else TSType.union2 t TSType.nullLit

/-! ### Type mapper, `PostgresCommonDriver.columnType` (postgres-common.ts) -/

/-- The `switch` cases of `PostgresCommonDriver.columnType` that only
`break` (leaving `typ` as the initial `string`). -/
def commonStringTypes : List String :=
  ["aclitem", "bit", "box", "bpchar", "cid", "cidr", "circle", "inet",
   "interval", "numeric", "decimal", "line", "lseg", "madaddr", "madaddr8",
   "money", "path", "pg_node_tree", "pg_snapshot", "point", "polygon",
   "regproc", "regrole", "tid", "text", "character varying", "character",
   "time", "timetz", "tsquery", "tsvector", "txid_snapshot", "uuid",
   "varbit", "varchar", "xid", "xml"]

/-- The `switch` cases of `PostgresCommonDriver.columnType` that assign the
`number` keyword type. -/
def commonNumberTypes : List String :=
  ["bigserial", "float4", "real", "float8", "float", "double precision",
   "int2", "smallint", "int4", "int", "integer", "int8", "bigint", "oid",
   "serial", "serial2", "serial4", "serial8", "smallserial"]

/-- The `switch` cases of `PostgresCommonDriver.columnType` that assign a
`Date` type reference. -/
def commonDateTypes : List String :=
  ["date", "timestamp", "timestamp without time zone", "timestamptz",
   "timestamp with time zone"]

/-- The base-type `switch` of `PostgresCommonDriver.columnType`
(postgres-common.ts lines 127-397): `typ` starts as `string`, cases with
only a `break` keep it, others reassign, the default assigns `any`.  The
cases are pairwise disjoint, so the switch is the same function as this
membership chain. -/
def baseTypeCommon (typeName : String) : TSType :=
  if typeName ∈ commonStringTypes then TSType.str
  else if typeName ∈ commonNumberTypes then TSType.num
  else if typeName ∈ ["bool", "boolean"] then TSType.boolean
  else if typeName = "bytea" then TSType.ref "Buffer"
  else if typeName ∈ commonDateTypes then TSType.ref "Date"
  else if typeName ∈ ["json", "jsonb"] then TSType.any
  else TSType.any

/-- `PostgresCommonDriver.columnType` (postgres-common.ts lines 114-408). -/
def columnTypeCommon (column : Option Column) : TSType :=
  match column with
  | none => TSType.any
  | some c =>
    match c.typ with
    | none => TSType.any
    | some t =>
      let typeName := jsToLower (stripPgCatalog t.name)
      applyNull c (applyArrayWrap c (baseTypeCommon typeName))

/-! ### Type mapper, bun-sqlite driver -/

/-- The base-type `switch` of the bun-sqlite `columnType` (bun-sqlite.ts
lines 54-98): `typ` starts as `any`; there is no default case and no array
handling.  The cases are pairwise disjoint, so the switch is the same
function as this membership chain. -/
def baseTypeBunSqlite (typeName : String) : TSType :=
  if typeName ∈ ["int", "integer", "tinyint", "smallint", "mediumint",
      "bigint", "unsignedbigint", "int2", "int8"] then TSType.num
  else if typeName ∈ ["varchar", "text"] then TSType.str
  else if typeName = "blob" then TSType.ref "Buffer"
  else if typeName ∈ ["real", "double", "doubleprecision", "float"] then TSType.num
  else if typeName ∈ ["date", "datetime"] then TSType.str
  else if typeName ∈ ["boolean", "bool", "timestamp"] then TSType.num
  else TSType.any

/-- `Driver.columnType` of the bun-sqlite driver (bun-sqlite.ts lines
48-108): no `pg_catalog.` strip, no array wrap. -/
def columnTypeBunSqlite (column : Option Column) : TSType :=
  match column with
  | none => TSType.any
  | some c =>
    match c.typ with
    | none => TSType.any
    | some t => applyNull c (baseTypeBunSqlite (jsToLower t.name))

/-! ### Identifier helpers -/

/-- JS `str.split("_")` at the character-list level (empty pieces kept,
as in JS). -/
def splitUnderscore : List Char → List (List Char)
  | [] => [[]]
  | c :: cs =>
    if c = '_' then [] :: splitUnderscore cs
    else
      match splitUnderscore cs with
      | g :: gs => (c :: g) :: gs
      | [] => [[c]]

/-- `part.charAt(0).toUpperCase() + part.slice(1).toLowerCase()`. -/
def capitalizePart : List Char → List Char
  | [] => []
  | c :: rest => c.toUpper :: rest.map Char.toLower

/-- `pascalCase` (app.ts lines 96-101 and the tagged-template driver):
split on `_`, capitalize each part, join. -/
def pascalCase (str : String) : String :=
  String.mk (((splitUnderscore str.toList).map capitalizePart).foldr
    (fun a b => a ++ b) [])

/-- `query.name[0].toLowerCase() + query.name.slice(1)` (app.ts line 130). -/
def lowerFirst (s : String) : String :=
  match s.toList with
  | [] => ""
  | c :: rest => String.mk (c.toLower :: rest)

/-- Modelled from the spec: the identifier casing conversion used by
`argName`/`colName`, whose defining file `src/drivers/utils.ts` is absent
from the source snapshot.  Spec section 4.3: the column's own name is
"converted to the target identifier casing convention" (snake_case to
camelCase). -/
def camelCase (s : String) : String :=
  match splitUnderscore s.toList with
  | [] => ""
  | first :: rest =>
    String.mk (first ++ (rest.map capitalizePart).foldr (fun a b => a ++ b) [])

/-- Modelled from the spec: `argName` from the absent `src/drivers/utils.ts`.
Spec section 4.3: prefer the column's own name (cased) when present and
non-empty, else the positional synthetic name `argN`. -/
def argName (i : Nat) (column : Option Column) : String :=
  match column with
  | some c => if c.name ≠ "" then camelCase c.name else "arg" ++ toString i
  | none => "arg" ++ toString i

/-- Modelled from the spec: `colName` from the absent `src/drivers/utils.ts`.
Spec section 4.3: prefer the column's own name (cased) when present and
non-empty, else the positional synthetic name `columnN`. -/
def colName (i : Nat) (c : Column) : String :=
  if c.name ≠ "" then camelCase c.name else "column" ++ toString i

/-! ### Type mapper, strict tagged-template driver (part_001) -/

/-- The `Date` cases of the tagged-template `columnType`. -/
def strictDateTypes : List String :=
  ["date", "timestamp", "timestamp without time zone", "timestamptz",
   "timestamp with time zone"]

/-- The numeric cases of the tagged-template `columnType`. -/
def strictNumberTypes : List String :=
  ["float4", "real", "float8", "float", "double precision", "int2",
   "smallint", "int4", "int", "integer", "int8", "bigint", "bigserial",
   "serial", "serial2", "serial4", "serial8", "smallserial", "oid"]

/-- The explicitly listed string cases of the tagged-template `columnType`. -/
def strictStringTypes : List String :=
  ["text", "varchar", "character varying", "char", "character", "bpchar",
   "name", "uuid", "citext", "inet", "cidr", "macaddr", "macaddr8", "money",
   "numeric", "decimal", "xml", "bit", "varbit", "bit varying", "interval",
   "time", "time without time zone", "timetz", "time with time zone",
   "tsvector", "tsquery"]

/-- The geometric cases of the tagged-template `columnType`, which throw. -/
def strictGeoTypes : List String :=
  ["point", "line", "lseg", "box", "path", "polygon", "circle"]

/-- The error thrown by the geometric cases (part_001 lines 176-179); it
names the type but not the column. -/
def strictGeoError (originalTypeName : String) : String :=
  "Unrecognized PostgreSQL type: \"" ++ originalTypeName ++
    "\". Please add support for this type in sqlc-gen-typescript/src/drivers/postgres.ts"

/-- The error thrown by the default case (part_001 lines 180-186); it names
the type and the column (`column.name || "unknown"`). -/
def strictDefaultError (originalTypeName columnName : String) : String :=
  "Unrecognized PostgreSQL type: \"" ++ originalTypeName ++
    "\" for column \"" ++ (if columnName = "" then "unknown" else columnName) ++
    "\". This usually means sqlc couldn't infer the type. " ++
    "Try adding an explicit cast like \"sqlc.arg(" ++ columnName ++
    ")::text\" or \"sqlc.narg('" ++ columnName ++
    "')\" in your query. If this is a valid PostgreSQL type that needs support, " ++
    "please add it to sqlc-gen-typescript/src/drivers/postgres.ts"

/-- The base-type `switch` of the tagged-template `columnType` (part_001
lines 89-187): geometric types and the default case throw.  The cases are
pairwise disjoint, so the switch is the same function as this membership
chain. -/
def baseTypeStrict (originalTypeName columnName lowerTypeName : String) :
    Except String TSType :=
  if lowerTypeName ∈ ["bool", "boolean"] then Except.ok TSType.boolean
  else if lowerTypeName = "bytea" then Except.ok (TSType.ref "Buffer")
  else if lowerTypeName ∈ strictDateTypes then Except.ok (TSType.ref "Date")
  else if lowerTypeName ∈ strictNumberTypes then Except.ok TSType.num
  else if lowerTypeName ∈ ["json", "jsonb"] then Except.ok TSType.any
  else if lowerTypeName = "void" then Except.ok TSType.voidKw
  else if lowerTypeName ∈ strictStringTypes then Except.ok TSType.str
  else if lowerTypeName ∈ strictGeoTypes then
    Except.error (strictGeoError originalTypeName)
  else
    Except.error (strictDefaultError originalTypeName columnName)

/-- `columnType` of the tagged-template driver (part_001 lines 49-200):
enum lookup first (with its own duplicated array/null tail), then the strict
switch, then array wrap and nullability. -/
def columnTypeStrict (em : JsMap EnumDef) (column : Option Column) :
    Except String TSType :=
  match column with
  | none => Except.ok TSType.any
  | some c =>
    match c.typ with
    | none => Except.ok TSType.any
    | some t =>
      let originalTypeName := t.name
      let lowerTypeName := jsToLower (stripPgCatalog originalTypeName)
      if mapHas em lowerTypeName then
        let typ := TSType.ref (pascalCase lowerTypeName)
        if jsArrayFlag c then
          Except.ok (applyNull c (wrapArray (jsDims c) typ))
        else
          Except.ok (applyNull c typ)
      else
        match baseTypeStrict originalTypeName c.name lowerTypeName with
        | Except.error e => Except.error e
        | Except.ok typ => Except.ok (applyNull c (applyArrayWrap c typ))

/-! ### Row access expressions (postgres-common.ts lines 22-68) -/

/-- `BIGINT_TYPES` (postgres-common.ts line 22). -/
def BIGINT_TYPES : List String := ["int8", "bigint", "bigserial", "serial8"]

/-- `isBigIntType` (postgres-common.ts lines 24-32): false when the column,
its type, or its type name is absent/empty; otherwise strip `pg_catalog.`
(case-sensitively), lower-case, and test membership in `BIGINT_TYPES`. -/
def isBigIntType (column : Option Column) : Bool :=
  match column with
  | none => false
  | some c =>
    match c.typ with
    | none => false
    | some t =>
      if t.name = "" then false
      else BIGINT_TYPES.contains (jsToLower (stripPgCatalog t.name))

/-- The shapes of the expression built by `createRowAccessExpression`:
`row[i]`, `Number(row[i])`, or `row[i] === null ? null : Number(row[i])`. -/
inductive RowAccessExpr where
  | elementAccess (arr : String) (i : Nat)
  | numberCall (e : RowAccessExpr)
  | condNullGuard (scrut e : RowAccessExpr)
  deriving DecidableEq, Repr

/-- `createRowAccessExpression` (postgres-common.ts lines 38-68). -/
def createRowAccessExpression (col : Column) (index : Nat) : RowAccessExpr :=
  let rowAccess := RowAccessExpr.elementAccess "row" index
  if ¬ isBigIntType (some col) then rowAccess
  else
    let numberCall := RowAccessExpr.numberCall rowAccess
    if col.notNull then numberCall
    else RowAccessExpr.condNullGuard rowAccess numberCall

/-! ### Structural facts about the type mappers -/

/-- Base types are never unions, arrays, or the null literal. -/
def isPlainBase : TSType → Bool
  | TSType.array _ => false
  | TSType.union2 _ _ => false
  | TSType.unionStr _ => false
  | TSType.nullLit => false
  | _ => true

theorem baseTypeCommon_plain (n : String) : isPlainBase (baseTypeCommon n) = true := by
  unfold baseTypeCommon
  repeat' split
  all_goals rfl

theorem baseTypeBunSqlite_plain (n : String) :
    isPlainBase (baseTypeBunSqlite n) = true := by
  unfold baseTypeBunSqlite
  repeat' split
  all_goals rfl

theorem baseTypeStrict_plain (o cn n : String) (t : TSType)
    (h : baseTypeStrict o cn n = Except.ok t) : isPlainBase t = true := by
  unfold baseTypeStrict at h
  repeat' split at h
  all_goals (cases h <;> rfl)

/-! ### Positional-parameter rewriter (`buildTaggedTemplate`, part_001) -/

/-- Whether the regex `\$(\d+)` can match at the current position: the next
character after the `$` is a digit. -/
def digitStart : List Char → Bool
  | [] => false
  | c :: _ => c.isDigit

/-- Left-to-right scan for `\$(\d+)` markers, mirroring
`queryText.matchAll(/\$(\d+)/g)` with the `parts.push(slice(lastIndex,
match.index))` bookkeeping: returns the list of (literal text before the
marker, marker digits) and the literal tail after the last marker.  The
`fuel` argument only bounds the recursion (each marker consumes at least
two characters); `scanFrom` runs it with enough fuel, so the fuel-exhausted
case is unreachable. -/
def scanFuel : Nat → List Char → List (List Char × List Char) × List Char
  | _, [] => ([], [])
  | 0, cs => ([], cs)
  | fuel + 1, c :: rest =>
    if c = '$' && digitStart rest then
      let ds := rest.takeWhile Char.isDigit
      let tl := rest.dropWhile Char.isDigit
      let r := scanFuel fuel tl
      (([], ds) :: r.1, r.2)
    else
      match scanFuel fuel rest with
      | ((lit, ds) :: segs, tail) => ((c :: lit, ds) :: segs, tail)
      | ([], tail) => ([], c :: tail)

/-- The marker scan of `buildTaggedTemplate`. -/
def scanFrom (cs : List Char) : List (List Char × List Char) × List Char :=
  scanFuel cs.length cs

/-- Re-insert each matched marker `$ds` between the literal fragments. -/
def reassemble : List (List Char × List Char) × List Char → List Char
  | ([], tail) => tail
  | ((lit, ds) :: segs, tail) => lit ++ '$' :: (ds ++ reassemble (segs, tail))

/-- `parseInt(ds, 10)` on a nonempty digit string. -/
def digitsToNat (ds : List Char) : Nat :=
  ds.foldl (fun acc c => acc * 10 + (c.toNat - '0'.toNat)) 0

/-- Resolve one marker to the bound argument-field name: `paramIndex =
parseInt(match[1], 10) - 1`; `params[paramIndex]` when defined gives
`argName(paramIndex, param.column)`, else the fallback
`` `arg${paramIndex}` ``. -/
def resolveMarker (params : List Parameter) (ds : List Char) : String :=
  match (if 0 ≤ (digitsToNat ds : Int) - 1
      then params[((digitsToNat ds : Int) - 1).toNat]? else none) with
  | some p => argName ((digitsToNat ds : Int) - 1).toNat p.column
  | none => "arg" ++ toString ((digitsToNat ds : Int) - 1)

/-- `buildTaggedTemplate` (part_001 lines 254-320), as the pair of the
template's literal fragments (`parts`, last element is the tail) and the
bound expressions, each expression being the field name `<n>` of an
`args.<n>` property access. -/
def buildTaggedTemplate (queryText : String) (params : List Parameter) :
    List String × List String :=
  let scanned := scanFrom queryText.toList
  (scanned.1.map (fun sg => String.mk sg.1) ++ [String.mk scanned.2],
   scanned.1.map (fun sg => resolveMarker params sg.2))

/-! ### Uniqueness validator (`assertUniqueNames`, validate.ts) -/

/-- The occurrence-count map: `counts.set(name, (counts.get(name) ?? 0) + 1)`
for each name in order. -/
def countsOf (names : List String) : JsMap Nat :=
  names.foldl (fun counts name =>
    mapSet counts name ((mapGet counts name).getD 0 + 1)) []

/-- Lexicographic comparison of character lists by code point, the default
JS `sort()` string comparison. -/
def charListLe : List Char → List Char → Bool
  | [], _ => true
  | _ :: _, [] => false
  | a :: as, b :: bs =>
    if a.toNat < b.toNat then true
    else if b.toNat < a.toNat then false
    else charListLe as bs

/-- The default JS string ordering used by `Array.prototype.sort()`. -/
def jsStrLe (a b : String) : Prop :=
  charListLe a.toList b.toList = true

instance : DecidableRel jsStrLe := by
  unfold jsStrLe; infer_instance

theorem charListLe_total : ∀ (a b : List Char),
    charListLe a b = true ∨ charListLe b a = true
  | [], _ => Or.inl rfl
  | _ :: _, [] => Or.inr rfl
  | a :: as, b :: bs => by
    by_cases hab : a.toNat < b.toNat
    · exact Or.inl (by simp [charListLe, hab])
    · by_cases hba : b.toNat < a.toNat
      · exact Or.inr (by simp [charListLe, hba])
      · cases charListLe_total as bs with
        | inl h => exact Or.inl (by simp [charListLe, hab, hba, h])
        | inr h => exact Or.inr (by simp [charListLe, hab, hba, h])

theorem charListLe_trans : ∀ {a b c : List Char},
    charListLe a b = true → charListLe b c = true → charListLe a c = true
  | [], _, _, _, _ => rfl
  | _ :: _, [], _, h1, _ => by simp [charListLe] at h1
  | _ :: _, _ :: _, [], _, h2 => by simp [charListLe] at h2
  | a :: as, b :: bs, c :: cs, h1, h2 => by
    simp only [charListLe] at h1 h2 ⊢
    by_cases hab : a.toNat < b.toNat
    · by_cases hbc : b.toNat < c.toNat
      · rw [if_pos (show a.toNat < c.toNat by omega)]
      · by_cases hcb : c.toNat < b.toNat
        · rw [if_neg hbc, if_pos hcb] at h2
          exact absurd h2 (by simp)
        · rw [if_pos (show a.toNat < c.toNat by omega)]
    · by_cases hba : b.toNat < a.toNat
      · rw [if_neg hab, if_pos hba] at h1
        exact absurd h1 (by simp)
      · rw [if_neg hab, if_neg hba] at h1
        by_cases hbc : b.toNat < c.toNat
        · rw [if_pos (show a.toNat < c.toNat by omega)]
        · by_cases hcb : c.toNat < b.toNat
          · rw [if_neg hbc, if_pos hcb] at h2
            exact absurd h2 (by simp)
          · rw [if_neg hbc, if_neg hcb] at h2
            rw [if_neg (show ¬ a.toNat < c.toNat by omega),
              if_neg (show ¬ c.toNat < a.toNat by omega)]
            exact charListLe_trans h1 h2

instance : IsTotal String jsStrLe :=
  ⟨fun a b => charListLe_total a.toList b.toList⟩

instance : IsTrans String jsStrLe :=
  ⟨fun _ _ _ h1 h2 => charListLe_trans h1 h2⟩

/-- The duplicated names: count above one, keys in insertion order, then
`sort()` — the default JS comparator is lexicographic, and `sort` is
modelled by insertion sort (any sort agreeing with the comparator is
extensionally the same on the duplicate-free key list). -/
def duplicatesOf (names : List String) : List String :=
  List.insertionSort jsStrLe
    (((countsOf names).filter (fun p => p.2 > 1)).map (fun p => p.1))

/-- `Array.prototype.join(sep)`. -/
def joinWith (sep : String) : List String → String
  | [] => ""
  | [x] => x
  | x :: xs => x ++ sep ++ joinWith sep xs

def NAMED_PARAMS_DOCS_URL : String :=
  "https://docs.sqlc.dev/en/latest/howto/named_parameters.html"

/-- The diagnostic thrown by `assertUniqueNames`. -/
def validatorMessage (kind queryName fileName : String)
    (duplicates : List String) : String :=
  joinWith "\n"
    ["sqlc-gen-typescript: ambiguous " ++ kind ++ " names for query '" ++
       queryName ++ "' (" ++ fileName ++ ")",
     "",
     "The TypeScript generator produced duplicate identifier(s):",
     joinWith "\n" (duplicates.map (fun d => "- " ++ d)),
     "",
     "Disambiguate using named parameters (sqlc.arg/sqlc.narg) or explicit column aliases.",
     "Docs: " ++ NAMED_PARAMS_DOCS_URL]

/-- `assertUniqueNames` (validate.ts): throw iff some derived name repeats. -/
def assertUniqueNames (kind queryName fileName : String) (names : List String) :
    Except String Unit :=
  let duplicates := duplicatesOf names
  if duplicates = [] then Except.ok ()
  else Except.error (validatorMessage kind queryName fileName duplicates)

/-! ### Runtime semantics of the emitted `:one` function bodies

Rows are abstracted: `none` stands for a JS `null`/`undefined` entry of the
result array, `some r` for a real row value (always truthy).  The result
`none` stands for the emitted function returning `null`. -/

/-- Body emitted by `PostgresCommonDriver.oneDecl` (postgres-common.ts lines
604-707): `const rows = ...; if (rows.length !== 1) return null; const row =
rows[0]; if (!row) return null; return {mapped fields};`. -/
def oneDeclCommonSem {α β : Type} (mapRow : α → β) (rows : List (Option α)) :
    Option β :=
  if rows.length ≠ 1 then none
  else
    match rows.head? with
    | some (some row) => some (mapRow row)
    | _ => none

/-- Body emitted by the bun-sqlite `oneDecl` (bun-sqlite.ts lines 225-338):
same control flow as the common driver. -/
def oneDeclBunSqliteSem {α β : Type} (mapRow : α → β) (rows : List (Option α)) :
    Option β :=
  if rows.length ≠ 1 then none
  else
    match rows.head? with
    | some (some row) => some (mapRow row)
    | _ => none

/-- Body emitted by the positional postgres.js `Driver.oneDecl` (the class
variant): `if (rows.length !== 1) return null; return rows[0] ?? null;`. -/
def oneDeclPostgresSem {α : Type} (rows : List (Option α)) : Option α :=
  if rows.length ≠ 1 then none
  else (rows.head?).getD none

/-- Body emitted by the tagged-template `oneDecl` (part_001 lines 385-444):
`const rows = await sql<Row[]>...; return rows[0] ?? null;` — no length
guard. -/
def oneDeclTaggedSem {α : Type} (rows : List (Option α)) : Option α :=
  (rows.head?).getD none

/-! ### Per-file assembly (`codegen`, app.ts) -/

/-- The declaration-level view of the emitted TypeScript nodes. -/
inductive TSNode where
  | importDecl (moduleName : String)
  | typeAlias (name : String) (t : TSType)
  | interfaceDecl (name : String) (fields : List (String × TSType))
  | funcDecl (kind : String) (name : String)
  deriving DecidableEq, Repr

/-- `getEnumName` (part_001 lines 28-37): the lower-cased type name when it
is a key of the enum map (no `pg_catalog.` strip here). -/
def getEnumName (em : JsMap EnumDef) (column : Option Column) : Option String :=
  match column with
  | none => none
  | some c =>
    match c.typ with
    | none => none
    | some t =>
      let typeName := jsToLower t.name
      if mapHas em typeName then some typeName else none

/-- `enumTypeDecl` (app.ts lines 80-91): an exported type alias whose right
side is the union of the enum's values as string-literal types, in order. -/
def enumTypeDecl (name : String) (enumDef : EnumDef) : TSNode :=
  TSNode.typeAlias (pascalCase name) (TSType.unionStr enumDef.vals)

/-- The driver preamble (part_001 lines 202-217): one import from
`"postgres"`. -/
def preamble : List TSNode := [TSNode.importDecl "postgres"]

/-- The `catch` wrapper of `codegen` (app.ts lines 171-175 and 214-218). -/
def wrapQueryError (queryName fileName msg : String) : String :=
  "Error in query \"" ++ queryName ++ "\" (" ++ fileName ++ "): " ++ msg

/-- Sequence a fallible map left to right, stopping at the first error —
the behavior of a JS `for`/`map` whose body can throw. -/
def mapExcept (f : α → Except String β) : List α → Except String (List β)
  | [] => Except.ok []
  | x :: xs =>
    match f x with
    | Except.error e => Except.error e
    | Except.ok y =>
      match mapExcept f xs with
      | Except.error e => Except.error e
      | Except.ok ys => Except.ok (y :: ys)

/-- The fields of `<QueryName>Args`, in parameter order; the first
`columnType` throw aborts. -/
def argFieldsOf (em : JsMap EnumDef) (params : List Parameter) :
    Except String (List (String × TSType)) :=
  mapExcept (fun ip =>
    (columnTypeStrict em ip.2.column).map (fun t => (argName ip.1 ip.2.column, t)))
    params.enum

/-- The fields of `<QueryName>Row`, in column order. -/
def colFieldsOf (em : JsMap EnumDef) (columns : List Column) :
    Except String (List (String × TSType)) :=
  mapExcept (fun ic =>
    (columnTypeStrict em (some ic.2)).map (fun t => (colName ic.1 ic.2, t)))
    columns.enum

/-- The `fileEnums.add(...)` accumulation over a list of columns. -/
def collectEnums (em : JsMap EnumDef) (cols : List (Option Column))
    (acc : List String) : List String :=
  cols.foldl (fun acc c =>
    match getEnumName em c with
    | some n => setAdd acc n
    | none => acc) acc

/-- The per-query part of `codegen` (app.ts lines 129-256): argument
interface (uniqueness check, enum collection, wrapped type mapping), result
interface likewise, then the command-kind `switch`.  Returns the emitted
nodes and the updated file-local used-enum set.  The `:execlastid` case
calls `execlastidDecl`, which throws outside any `try`. -/
def argInterfaceStep (em : JsMap EnumDef) (fileName : String)
    (fileEnums : List String) (q : Query) :
    Except String (List TSNode × List String) :=
  if q.params.length > 0 then
    match assertUniqueNames "argument" q.name fileName
      (q.params.enum.map (fun ip => argName ip.1 ip.2.column)) with
    | Except.error e => Except.error e
    | Except.ok _ =>
      let fe := collectEnums em (q.params.map (fun p => p.column)) fileEnums
      match argFieldsOf em q.params with
      | Except.ok fields =>
        Except.ok ([TSNode.interfaceDecl (q.name ++ "Args") fields], fe)
      | Except.error e => Except.error (wrapQueryError q.name fileName e)
  else Except.ok ([], fileEnums)

def colInterfaceStep (em : JsMap EnumDef) (fileName : String)
    (fileEnums : List String) (q : Query) :
    Except String (List TSNode × List String) :=
  if q.columns.length > 0 then
    match assertUniqueNames "column" q.name fileName
      (q.columns.enum.map (fun ic => colName ic.1 ic.2)) with
    | Except.error e => Except.error e
    | Except.ok _ =>
      let fe := collectEnums em (q.columns.map (fun c => some c)) fileEnums
      match colFieldsOf em q.columns with
      | Except.ok fields =>
        Except.ok ([TSNode.interfaceDecl (q.name ++ "Row") fields], fe)
      | Except.error e => Except.error (wrapQueryError q.name fileName e)
  else Except.ok ([], fileEnums)

/-- The command-kind `switch` (app.ts lines 221-256): a missing case emits
nothing; `:execlastid` reaches `execlastidDecl`, which throws outside any
`try`. -/
def cmdStep (q : Query) : Except String (List TSNode) :=
  if q.cmd = ":exec" then Except.ok [TSNode.funcDecl "exec" (lowerFirst q.name)]
  else if q.cmd = ":execlastid" then
    Except.error "postgres driver does not support :execlastid"
  else if q.cmd = ":one" then Except.ok [TSNode.funcDecl "one" (lowerFirst q.name)]
  else if q.cmd = ":many" then Except.ok [TSNode.funcDecl "many" (lowerFirst q.name)]
  else Except.ok []

def codegenQuery (em : JsMap EnumDef) (fileName : String)
    (fileEnums : List String) (q : Query) :
    Except String (List TSNode × List String) :=
  match argInterfaceStep em fileName fileEnums q with
  | Except.error e => Except.error e
  | Except.ok (argNodes, fe1) =>
    match colInterfaceStep em fileName fe1 q with
    | Except.error e => Except.error e
    | Except.ok (colNodes, fe2) =>
      match cmdStep q with
      | Except.error e => Except.error e
      | Except.ok cmdNodes => Except.ok (argNodes ++ colNodes ++ cmdNodes, fe2)

/-- The `querymap` grouping (app.ts lines 110-118): group queries by
filename, first-seen filename order, query order preserved per file. -/
def groupByFilename (queries : List Query) : List (String × List Query) :=
  queries.foldl (fun acc q =>
    if acc.any (fun g => g.1 = q.filename) then
      acc.map (fun g => if g.1 = q.filename then (g.1, g.2 ++ [q]) else g)
    else acc ++ [(q.filename, [q])]) []

/-- Process a file's queries in order, accumulating nodes and used enums. -/
def processQueriesFrom (em : JsMap EnumDef) (fileName : String) :
    List Query → List TSNode × List String →
    Except String (List TSNode × List String)
  | [], acc => Except.ok acc
  | q :: qs, acc =>
    match codegenQuery em fileName acc.2 q with
    | Except.error e => Except.error e
    | Except.ok r => processQueriesFrom em fileName qs (acc.1 ++ r.1, r.2)

/-- The per-file query loop of `codegen`, starting from empty accumulators. -/
def processQueries (em : JsMap EnumDef) (fileName : String) (qs : List Query) :
    Except String (List TSNode × List String) :=
  processQueriesFrom em fileName qs ([], [])

/-- The fixed generated-file header (app.ts line 300). -/
def fileHeader : String := "// Code generated by sqlc. DO NOT EDIT.\n\n"

/-- `printNode` (app.ts lines 291-306): header, then each rendered node
followed by a blank line.  Rendering a node to text is the out-of-scope
printer, abstracted as `render`. -/
def printNode (render : TSNode → String) (nodes : List TSNode) : String :=
  nodes.foldl (fun output node => output ++ render node ++ "\n\n") fileHeader

/-- `filename.replace(".", "_")`: JS `replace` with a string pattern
replaces only the first occurrence. -/
def replaceFirstDot : List Char → List Char
  | [] => []
  | c :: cs => if c = '.' then '_' :: cs else c :: replaceFirstDot cs

/-- The emitted file name (app.ts line 274): `` `${filename.replace(".", "_")}.ts` ``. -/
def outputFileName (filename : String) : String :=
  String.mk (replaceFirstDot filename.toList) ++ ".ts"

instance {ε α : Type} [DecidableEq ε] [DecidableEq α] : DecidableEq (Except ε α) :=
  fun a b =>
    match a, b with
    | Except.error e₁, Except.error e₂ =>
      if h : e₁ = e₂ then isTrue (by rw [h]) else isFalse (by simp [h])
    | Except.ok v₁, Except.ok v₂ =>
      if h : v₁ = v₂ then isTrue (by rw [h]) else isFalse (by simp [h])
    | Except.error _, Except.ok _ => isFalse (by simp)
    | Except.ok _, Except.error _ => isFalse (by simp)

/-- An output file of the response. -/
structure FileOut where
  name : String
  contents : String
  deriving DecidableEq, Repr

/-- One iteration of the per-file loop of `codegen` (app.ts lines 123-278):
preamble, enum type declarations spliced after the preamble, query nodes,
serialized through `printNode`. -/
def codegenFile (em : JsMap EnumDef) (render : TSNode → String)
    (fileName : String) (qs : List Query) : Except String FileOut :=
  match processQueries em fileName qs with
  | Except.error e => Except.error e
  | Except.ok r =>
    let enumNodes := r.2.filterMap (fun n => (mapGet em n).map (enumTypeDecl n))
    let nodes := preamble ++ enumNodes ++ r.1
    Except.ok { name := outputFileName fileName, contents := printNode render nodes }

/-- `codegen` (app.ts lines 103-283): build the enum map, group queries by
filename, emit one file per group.  Any uncaught throw aborts the whole
run. -/
def codegen (render : TSNode → String) (input : GenerateRequest) :
    Except String (List FileOut) :=
  let em := buildEnumMap input
  mapExcept (fun g => codegenFile em render g.1 g.2) (groupByFilename input.queries)

/-! ### Round-trip of the positional-parameter scan -/

theorem scanFuel_reassemble : ∀ (fuel : Nat) (cs : List Char), cs.length ≤ fuel →
    reassemble (scanFuel fuel cs) = cs := by
  intro fuel
  induction fuel with
  | zero =>
    intro cs h
    have hnil : cs = [] := List.eq_nil_of_length_eq_zero (Nat.le_zero.mp h)
    subst hnil
    simp [scanFuel, reassemble]
  | succ fuel ih =>
    intro cs h
    cases cs with
    | nil => simp [scanFuel, reassemble]
    | cons c rest =>
      have hrest : rest.length ≤ fuel := by
        simpa using Nat.succ_le_succ_iff.mp (by simpa using h)
      by_cases hm : (c = '$' && digitStart rest) = true
      · have hc : c = '$' := by
          have hand := (Bool.and_eq_true _ _).mp hm
          exact of_decide_eq_true hand.1
        have htl : (rest.dropWhile Char.isDigit).length ≤ fuel := by
          have h1 : (rest.dropWhile Char.isDigit).length ≤ rest.length :=
            (List.dropWhile_sublist _).length_le
          omega
        simp only [scanFuel, if_pos hm, reassemble, List.nil_append]
        rw [show ((scanFuel fuel (rest.dropWhile Char.isDigit)).1,
            (scanFuel fuel (rest.dropWhile Char.isDigit)).2) =
            scanFuel fuel (rest.dropWhile Char.isDigit) from rfl]
        rw [ih _ htl, List.takeWhile_append_dropWhile, hc]
      · simp only [scanFuel, if_neg hm]
        have hre := ih rest hrest
        cases hsf : scanFuel fuel rest with
        | mk segs tail =>
          rw [hsf] at hre
          cases segs with
          | nil =>
            simp only [reassemble] at hre ⊢
            rw [hre]
          | cons sg segs' =>
            obtain ⟨lit, ds⟩ := sg
            simp only [reassemble, List.cons_append] at hre ⊢
            rw [← hre]

theorem scanFrom_reassemble (cs : List Char) : reassemble (scanFrom cs) = cs :=
  scanFuel_reassemble cs.length cs le_rfl

/-- Interleave literal fragments with re-inserted marker strings. -/
def interleave : List String → List String → String
  | p :: ps, m :: ms => p ++ m ++ interleave ps ms
  | p :: _, [] => p
  | [], _ => ""

theorem mk_append (a b : List Char) : String.mk (a ++ b) = String.mk a ++ String.mk b := rfl

theorem mk_toList (s : String) : String.mk s.toList = s := rfl

theorem interleave_reassemble (segs : List (List Char × List Char)) (tail : List Char) :
    interleave (segs.map (fun sg => String.mk sg.1) ++ [String.mk tail])
      (segs.map (fun sg => String.mk ('$' :: sg.2))) =
      String.mk (reassemble (segs, tail)) := by
  induction segs with
  | nil => simp [interleave, reassemble]
  | cons sg segs ih =>
    obtain ⟨lit, ds⟩ := sg
    simp only [List.map_cons, List.cons_append, List.append_eq, interleave, ih, reassemble]
    rw [show lit ++ '$' :: (ds ++ reassemble (segs, tail)) =
        (lit ++ ('$' :: ds)) ++ reassemble (segs, tail) by simp]
    rw [mk_append, mk_append]

/-- **C4.**  The positional-parameter rewriter: (a) re-inserting each
matched marker `$k` between the literal fragments reconstitutes the input
byte-for-byte; (b) a marker with `1 ≤ k ≤ params.length` binds parameter
`k-1`'s derived argument-field name; (c) an out-of-range index (`k = 0` or
`k > params.length`) yields the synthetic `` `arg${k-1}` `` name instead of
failing; (d) no markers gives a single literal fragment equal to the input
and no bound expressions. -/
theorem C4_rewriter_roundtrip (queryText : String) (params : List Parameter) :
    (interleave (buildTaggedTemplate queryText params).1
        ((scanFrom queryText.toList).1.map (fun sg => String.mk ('$' :: sg.2))) =
      queryText) ∧
    (∀ (i : Nat) (sg : List Char × List Char),
      (scanFrom queryText.toList).1[i]? = some sg →
      (∀ p, 1 ≤ digitsToNat sg.2 → params[digitsToNat sg.2 - 1]? = some p →
        (buildTaggedTemplate queryText params).2[i]? =
          some (argName (digitsToNat sg.2 - 1) p.column)) ∧
      (params.length < digitsToNat sg.2 →
        (buildTaggedTemplate queryText params).2[i]? =
          some ("arg" ++ toString ((digitsToNat sg.2 : Int) - 1))) ∧
      (digitsToNat sg.2 = 0 →
        (buildTaggedTemplate queryText params).2[i]? =
          some ("arg" ++ toString (-1 : Int)))) ∧
    ((buildTaggedTemplate queryText params).2 = [] →
      (buildTaggedTemplate queryText params).1 = [queryText]) := by
  refine ⟨?_, ?_, ?_⟩
  · show interleave ((scanFrom queryText.toList).1.map (fun sg => String.mk sg.1) ++
      [String.mk (scanFrom queryText.toList).2]) _ = queryText
    rw [interleave_reassemble]
    rw [show ((scanFrom queryText.toList).1, (scanFrom queryText.toList).2) =
        scanFrom queryText.toList from rfl]
    rw [scanFrom_reassemble, mk_toList]
  · intro i sg hsg
    have hmap : (buildTaggedTemplate queryText params).2[i]? =
        some (resolveMarker params sg.2) := by
      show ((scanFrom queryText.toList).1.map (fun sg => resolveMarker params sg.2))[i]? = _
      rw [List.getElem?_map, hsg]
      rfl
    refine ⟨?_, ?_, ?_⟩
    · intro p hk hp
      rw [hmap]
      unfold resolveMarker
      rw [if_pos (by omega : (0 : Int) ≤ (digitsToNat sg.2 : Int) - 1)]
      rw [show ((digitsToNat sg.2 : Int) - 1).toNat = digitsToNat sg.2 - 1 by omega]
      rw [hp]
    · intro hk
      rw [hmap]
      unfold resolveMarker
      rw [if_pos (by omega : (0 : Int) ≤ (digitsToNat sg.2 : Int) - 1)]
      rw [show ((digitsToNat sg.2 : Int) - 1).toNat = digitsToNat sg.2 - 1 by omega]
      rw [List.getElem?_eq_none (by omega : params.length ≤ digitsToNat sg.2 - 1)]
    · intro hk
      rw [hmap]
      unfold resolveMarker
      rw [hk]
      rfl
  · intro hexpr
    have hsegs : (scanFrom queryText.toList).1 = [] := by
      have : (scanFrom queryText.toList).1.map
          (fun sg => resolveMarker params sg.2) = [] := hexpr
      exact List.map_eq_nil_iff.mp this
    show (scanFrom queryText.toList).1.map (fun sg => String.mk sg.1) ++
      [String.mk (scanFrom queryText.toList).2] = [queryText]
    rw [hsegs]
    have hre := scanFrom_reassemble queryText.toList
    rw [show scanFrom queryText.toList =
        ((scanFrom queryText.toList).1, (scanFrom queryText.toList).2) from rfl,
      hsegs] at hre
    simp only [reassemble] at hre
    rw [List.map_nil, List.nil_append, hre, mk_toList]

/-- Witness for C4 at the spec's P5 example. -/
theorem C4_rewriter_roundtrip_witness :
    interleave (buildTaggedTemplate "SELECT * FROM authors WHERE id = $1 LIMIT 1"
        [⟨some ⟨"id", true, false, 0, some ⟨"int8"⟩⟩⟩]).1
      ((scanFrom "SELECT * FROM authors WHERE id = $1 LIMIT 1".toList).1.map
        (fun sg => String.mk ('$' :: sg.2))) =
      "SELECT * FROM authors WHERE id = $1 LIMIT 1" ∧
    (buildTaggedTemplate "SELECT * FROM authors WHERE id = $1 LIMIT 1"
        [⟨some ⟨"id", true, false, 0, some ⟨"int8"⟩⟩⟩]).2[0]? = some "id" := by
  have h := C4_rewriter_roundtrip "SELECT * FROM authors WHERE id = $1 LIMIT 1"
    [⟨some ⟨"id", true, false, 0, some ⟨"int8"⟩⟩⟩]
  refine ⟨h.1, ?_⟩
  have hb := (h.2.1 0 ("SELECT * FROM authors WHERE id = ".toList, ['1'])
    (by decide)).1 ⟨some ⟨"id", true, false, 0, some ⟨"int8"⟩⟩⟩ (by decide) (by decide)
  rw [hb]
  decide

/-! ### Facts about the uniqueness validator -/

theorem strContains_trans {a b c : String} (h1 : strContains a b)
    (h2 : strContains b c) : strContains a c :=
  List.IsInfix.trans h2 h1

theorem counts_foldl_get (names : List String) : ∀ (acc : JsMap Nat) (d : String),
    mapGet (names.foldl (fun counts name =>
      mapSet counts name ((mapGet counts name).getD 0 + 1)) acc) d =
    if names.count d = 0 then mapGet acc d
    else some ((mapGet acc d).getD 0 + names.count d) := by
  induction names with
  | nil => intro acc d; simp
  | cons n ns ih =>
    intro acc d
    simp only [List.foldl_cons]
    rw [ih]
    by_cases hdn : d = n
    · subst hdn
      rw [mapGet_mapSet, if_pos rfl, List.count_cons_self]
      by_cases h0 : ns.count d = 0
      · simp [h0]
      · rw [if_neg h0, if_neg (by omega)]
        simp only [Option.getD_some]
        congr 1
        omega
    · rw [mapGet_mapSet, if_neg hdn, List.count_cons_of_ne hdn]

theorem countsOf_get (names : List String) (d : String) :
    mapGet (countsOf names) d =
      if names.count d = 0 then none else some (names.count d) := by
  unfold countsOf
  rw [counts_foldl_get]
  simp [mapGet]

theorem mapSet_keys (m : JsMap α) (k : String) (v : α) :
    (mapSet m k v).map (fun p => p.1) =
      if m.any (fun p => p.1 = k) then m.map (fun p => p.1)
      else m.map (fun p => p.1) ++ [k] := by
  unfold mapSet
  by_cases hmem : m.any (fun p => p.1 = k)
  · rw [if_pos hmem, if_pos hmem, List.map_map]
    apply List.map_congr_left
    intro p _
    by_cases hpk : p.1 = k
    · simp [hpk]
    · simp [hpk]
  · rw [if_neg hmem, if_neg hmem, List.map_append]
    rfl

theorem keys_nodup_mapSet (m : JsMap α) (k : String) (v : α)
    (h : (m.map (fun p => p.1)).Nodup) :
    ((mapSet m k v).map (fun p => p.1)).Nodup := by
  rw [mapSet_keys]
  by_cases hmem : m.any (fun p => p.1 = k)
  · rwa [if_pos hmem]
  · rw [if_neg hmem]
    refine List.Nodup.append h (List.nodup_singleton k) ?_
    intro x hx hxk
    have hxk' : x = k := by simpa using hxk
    subst hxk'
    obtain ⟨p, hp, hpk⟩ := List.mem_map.mp hx
    exact hmem (List.any_eq_true.mpr ⟨p, hp, by simpa using hpk⟩)

theorem counts_foldl_keys_nodup (names : List String) :
    ∀ acc : JsMap Nat, (acc.map (fun p => p.1)).Nodup →
    ((names.foldl (fun counts name =>
        mapSet counts name ((mapGet counts name).getD 0 + 1)) acc).map
      (fun p => p.1)).Nodup := by
  induction names with
  | nil => intro acc h; exact h
  | cons n ns ih =>
    intro acc h
    exact ih _ (keys_nodup_mapSet _ _ _ h)

theorem countsOf_keys_nodup (names : List String) :
    ((countsOf names).map (fun p => p.1)).Nodup :=
  counts_foldl_keys_nodup names [] (by simp)

theorem mem_iff_mapGet {m : JsMap α} (hnd : (m.map (fun p => p.1)).Nodup)
    (k : String) (v : α) : (k, v) ∈ m ↔ mapGet m k = some v := by
  induction m with
  | nil => simp [mapGet]
  | cons p ps ih =>
    simp only [List.map_cons, List.nodup_cons] at hnd
    by_cases hpk : p.1 = k
    · unfold mapGet
      rw [List.find?_cons_of_pos _ (by simp [hpk])]
      simp only [Option.map_some', Option.some.injEq, List.mem_cons]
      constructor
      · rintro (h | h)
        · rw [← h]
        · exact absurd (hpk ▸ List.mem_map_of_mem (fun p => p.1) h) hnd.1
      · intro h
        left
        have hp2 : p = (p.1, p.2) := rfl
        rw [hp2, hpk, h]
    · unfold mapGet
      rw [List.find?_cons_of_neg _ (by simp [hpk])]
      rw [List.mem_cons]
      constructor
      · rintro (h | h)
        · exact absurd (congrArg Prod.fst h.symm) hpk
        · exact (ih hnd.2).mp h
      · intro h
        exact Or.inr ((ih hnd.2).mpr h)

theorem mem_duplicatesOf (names : List String) (d : String) :
    d ∈ duplicatesOf names ↔ 2 ≤ names.count d := by
  unfold duplicatesOf
  rw [(List.perm_insertionSort jsStrLe _).mem_iff]
  simp only [List.mem_map, List.mem_filter]
  constructor
  · rintro ⟨p, ⟨hpm, hc⟩, rfl⟩
    have hg := (mem_iff_mapGet (countsOf_keys_nodup names) p.1 p.2).mp hpm
    rw [countsOf_get] at hg
    split at hg
    · exact absurd hg (by simp)
    · injection hg with hg
      have : 1 < p.2 := by simpa using hc
      omega
  · intro h2
    refine ⟨(d, names.count d), ⟨?_, by simpa using (by omega : 1 < names.count d)⟩, rfl⟩
    apply (mem_iff_mapGet (countsOf_keys_nodup names) _ _).mpr
    rw [countsOf_get, if_neg (by omega)]

theorem duplicatesOf_sorted (names : List String) :
    List.Sorted jsStrLe (duplicatesOf names) :=
  List.sorted_insertionSort jsStrLe _

theorem duplicatesOf_nodup (names : List String) : (duplicatesOf names).Nodup := by
  unfold duplicatesOf
  apply ((List.perm_insertionSort jsStrLe _).nodup_iff).mpr
  have hsub : List.Sublist
      (((countsOf names).filter (fun p => p.2 > 1)).map (fun p => p.1))
      ((countsOf names).map (fun p => p.1)) := (List.filter_sublist _).map _
  exact (countsOf_keys_nodup names).sublist hsub

theorem joinWith_contains (sep : String) : ∀ (xs : List String) (x : String),
    x ∈ xs → strContains (joinWith sep xs) x
  | [], x, hx => absurd hx (List.not_mem_nil x)
  | [y], x, hx => by
    have hxy : x = y := by simpa using hx
    subst hxy
    exact strContains_refl x
  | y :: z :: zs, x, hx => by
    rw [show joinWith sep (y :: z :: zs) = y ++ sep ++ joinWith sep (z :: zs) from rfl]
    rcases List.mem_cons.mp hx with h | h
    · subst h
      exact strContains_append_left (strContains_append_left (strContains_refl x) sep) _
    · exact strContains_append_right (joinWith_contains sep (z :: zs) x h) _

theorem validatorMessage_contains_dup (kind queryName fileName d : String)
    (dups : List String) (hd : d ∈ dups) :
    strContains (validatorMessage kind queryName fileName dups) ("- " ++ d) := by
  have h1 : strContains (joinWith "\n" (dups.map (fun d => "- " ++ d))) ("- " ++ d) :=
    joinWith_contains _ _ _ (List.mem_map_of_mem _ hd)
  have h2 : strContains (validatorMessage kind queryName fileName dups)
      (joinWith "\n" (dups.map (fun d => "- " ++ d))) := by
    unfold validatorMessage
    exact joinWith_contains _ _ _ (by simp)
  exact strContains_trans h2 h1

theorem validatorMessage_contains_query (kind queryName fileName : String)
    (dups : List String) :
    strContains (validatorMessage kind queryName fileName dups) queryName := by
  have hline : strContains ("sqlc-gen-typescript: ambiguous " ++ kind ++
      " names for query '" ++ queryName ++ "' (" ++ fileName ++ ")") queryName := by
    apply strContains_append_left
    apply strContains_append_left
    apply strContains_append_left
    exact strContains_append_right (strContains_refl queryName) _
  refine strContains_trans ?_ hline
  unfold validatorMessage
  exact joinWith_contains _ _ _ (by simp)

theorem validatorMessage_contains_file (kind queryName fileName : String)
    (dups : List String) :
    strContains (validatorMessage kind queryName fileName dups) fileName := by
  have hline : strContains ("sqlc-gen-typescript: ambiguous " ++ kind ++
      " names for query '" ++ queryName ++ "' (" ++ fileName ++ ")") fileName := by
    apply strContains_append_left
    exact strContains_append_right (strContains_refl fileName) _
  refine strContains_trans ?_ hline
  unfold validatorMessage
  exact joinWith_contains _ _ _ (by simp)

theorem validatorMessage_contains_guidance (kind queryName fileName : String)
    (dups : List String) :
    strContains (validatorMessage kind queryName fileName dups)
      "Disambiguate using named parameters (sqlc.arg/sqlc.narg) or explicit column aliases." := by
  unfold validatorMessage
  exact joinWith_contains _ _ _ (by simp)

/-- **C5.**  `assertUniqueNames`: a name list with a repeated element throws
the diagnostic, which contains every repeated name (the listed duplicates
being sorted and duplicate-free), the query name, the filename, and the
remediation guidance; a list with no repeats does not throw. -/
theorem C5_uniqueness_validator (kind queryName fileName : String)
    (names : List String) :
    (¬ names.Nodup →
      assertUniqueNames kind queryName fileName names =
        Except.error
          (validatorMessage kind queryName fileName (duplicatesOf names)) ∧
      (∀ d, 2 ≤ names.count d →
        strContains (validatorMessage kind queryName fileName (duplicatesOf names))
          ("- " ++ d)) ∧
      strContains (validatorMessage kind queryName fileName (duplicatesOf names))
        queryName ∧
      strContains (validatorMessage kind queryName fileName (duplicatesOf names))
        fileName ∧
      strContains (validatorMessage kind queryName fileName (duplicatesOf names))
        "Disambiguate using named parameters (sqlc.arg/sqlc.narg) or explicit column aliases.") ∧
    (names.Nodup → assertUniqueNames kind queryName fileName names = Except.ok ()) ∧
    (∀ d, d ∈ duplicatesOf names ↔ 2 ≤ names.count d) ∧
    List.Sorted jsStrLe (duplicatesOf names) ∧
    (duplicatesOf names).Nodup := by
  refine ⟨?_, ?_, mem_duplicatesOf names, duplicatesOf_sorted names,
    duplicatesOf_nodup names⟩
  · intro hnd
    have hex : ∃ a, 2 ≤ names.count a := by
      by_contra hno
      push_neg at hno
      exact hnd (List.nodup_iff_count_le_one.mpr (fun a => by
        have := hno a
        omega))
    obtain ⟨a, ha⟩ := hex
    have hne : duplicatesOf names ≠ [] :=
      List.ne_nil_of_mem ((mem_duplicatesOf names a).mpr ha)
    refine ⟨?_, ?_, validatorMessage_contains_query _ _ _ _,
      validatorMessage_contains_file _ _ _ _,
      validatorMessage_contains_guidance _ _ _ _⟩
    · unfold assertUniqueNames
      rw [if_neg hne]
    · intro d hd
      exact validatorMessage_contains_dup _ _ _ _ _
        ((mem_duplicatesOf names d).mpr hd)
  · intro hnd
    have hnil : duplicatesOf names = [] := by
      rw [List.eq_nil_iff_forall_not_mem]
      intro d hd
      have := (mem_duplicatesOf names d).mp hd
      have := List.nodup_iff_count_le_one.mp hnd d
      omega
    unfold assertUniqueNames
    rw [if_pos hnil]

/-- Witness for C5 at the repository's own test inputs. -/
theorem C5_uniqueness_validator_witness :
    ¬ ["startedAt", "startedAt"].Nodup ∧
    assertUniqueNames "argument" "GetJobRunStats" "scheduled_job_runs.sql"
        ["startedAt", "startedAt"] =
      Except.error (validatorMessage "argument" "GetJobRunStats"
        "scheduled_job_runs.sql" (duplicatesOf ["startedAt", "startedAt"])) ∧
    strContains (validatorMessage "argument" "GetJobRunStats"
        "scheduled_job_runs.sql" (duplicatesOf ["startedAt", "startedAt"]))
      "- startedAt" ∧
    assertUniqueNames "column" "ListUsers" "users.sql" ["id", "createdAt"] =
      Except.ok () := by
  have h := C5_uniqueness_validator "argument" "GetJobRunStats"
    "scheduled_job_runs.sql" ["startedAt", "startedAt"]
  have h2 := C5_uniqueness_validator "column" "ListUsers" "users.sql"
    ["id", "createdAt"]
  obtain ⟨he, hc, _, _, _⟩ := h.1 (by decide)
  exact ⟨by decide, he, hc "startedAt" (by decide), h2.2.1 (by decide)⟩

/-! ### Nullability and array structure of mapped types -/

/-- Whether the top node is the `union([t, null])` built by the nullability
tail. -/
def hasTopNull : TSType → Bool
  | TSType.union2 _ TSType.nullLit => true
  | _ => false

/-- Remove the top-level null union, if present. -/
def stripTopNull : TSType → TSType
  | TSType.union2 t TSType.nullLit => t
  | t => t

/-- Number of top-level array nestings. -/
def arrayDepth : TSType → Nat
  | TSType.array t => arrayDepth t + 1
  | _ => 0

theorem hasTopNull_plain (t : TSType) (h : isPlainBase t = true) :
    hasTopNull t = false := by
  cases t <;> simp_all [isPlainBase, hasTopNull]

theorem hasTopNull_wrapArray_plain (n : Nat) (t : TSType)
    (h : isPlainBase t = true) : hasTopNull (wrapArray n t) = false := by
  cases n with
  | zero => exact hasTopNull_plain t h
  | succ n => rfl

theorem arrayDepth_wrapArray (n : Nat) (t : TSType) :
    arrayDepth (wrapArray n t) = n + arrayDepth t := by
  induction n with
  | zero => simp [wrapArray]
  | succ n ih =>
    simp only [wrapArray, arrayDepth, ih]
    omega

theorem arrayDepth_plain (t : TSType) (h : isPlainBase t = true) :
    arrayDepth t = 0 := by
  cases t <;> simp_all [isPlainBase, arrayDepth]

theorem stripTopNull_of_not_null (t : TSType) (h : hasTopNull t = false) :
    stripTopNull t = t := by
  cases t with
  | union2 a b => cases b <;> simp_all [hasTopNull, stripTopNull]
  | _ => rfl

theorem applyNull_props (c : Column) (t : TSType) (h : hasTopNull t = false) :
    hasTopNull (applyNull c t) = !c.notNull ∧ stripTopNull (applyNull c t) = t := by
  unfold applyNull
  cases hn : c.notNull with
  | true =>
    constructor
    · simpa using h
    · simpa using stripTopNull_of_not_null t h
  | false => exact ⟨rfl, rfl⟩

theorem applyArrayWrap_props (c : Column) (t : TSType) (h : isPlainBase t = true) :
    hasTopNull (applyArrayWrap c t) = false ∧
    arrayDepth (applyArrayWrap c t) = (if jsArrayFlag c then jsDims c else 0) := by
  unfold applyArrayWrap
  by_cases hf : jsArrayFlag c
  · simp [hf, hasTopNull_wrapArray_plain _ _ h, arrayDepth_wrapArray,
      arrayDepth_plain _ h]
  · simp [hf, hasTopNull_plain _ h, arrayDepth_plain _ h]

theorem mapped_shape_props (c : Column) (b : TSType) (hb : isPlainBase b = true) :
    hasTopNull (applyNull c (applyArrayWrap c b)) = !c.notNull ∧
    arrayDepth (stripTopNull (applyNull c (applyArrayWrap c b))) =
      (if jsArrayFlag c then jsDims c else 0) := by
  obtain ⟨hw, hd⟩ := applyArrayWrap_props c b hb
  obtain ⟨h1, h2⟩ := applyNull_props c _ hw
  exact ⟨h1, by rw [h2, hd]⟩

theorem jsDims_of_zero (c : Column) (h : c.arrayDims = 0) : jsDims c = 1 := by
  simp [jsDims, h]

theorem jsDims_of_three (c : Column) (h : c.arrayDims = 3) : jsDims c = 3 := by
  simp [jsDims, h]

theorem jsArrayFlag_of_isArray (c : Column) (h : c.isArray = true) :
    jsArrayFlag c = true := by
  simp [jsArrayFlag, h]

theorem jsArrayFlag_of_three (c : Column) (h : c.arrayDims = 3) :
    jsArrayFlag c = true := by
  simp [jsArrayFlag, h]

/-- **C6** (amended): for every column that carries a type descriptor, the
mapped type of the common driver and (on success) of the strict
tagged-template driver has the null-marker union exactly when `notNull` is
false, applied outside the array wrapping; `isArray = true, arrayDims = 0`
wraps exactly one array level and `arrayDims = 3` exactly three.  (A column
with no type descriptor maps to bare `any` — see the counterexample.) -/
theorem C6_nullability_array (c : Column) (t : PgType) (em : JsMap EnumDef)
    (h : c.typ = some t) :
    (hasTopNull (columnTypeCommon (some c)) = !c.notNull) ∧
    (c.isArray = true → c.arrayDims = 0 →
      arrayDepth (stripTopNull (columnTypeCommon (some c))) = 1) ∧
    (c.arrayDims = 3 →
      arrayDepth (stripTopNull (columnTypeCommon (some c))) = 3) ∧
    (∀ u, columnTypeStrict em (some c) = Except.ok u →
      hasTopNull u = !c.notNull ∧
      (c.isArray = true → c.arrayDims = 0 → arrayDepth (stripTopNull u) = 1) ∧
      (c.arrayDims = 3 → arrayDepth (stripTopNull u) = 3)) := by
  have hcommon : columnTypeCommon (some c) =
      applyNull c (applyArrayWrap c
        (baseTypeCommon (jsToLower (stripPgCatalog t.name)))) := by
    simp only [columnTypeCommon, h]
  obtain ⟨hc1, hc2⟩ := mapped_shape_props c _
    (baseTypeCommon_plain (jsToLower (stripPgCatalog t.name)))
  refine ⟨by rw [hcommon]; exact hc1, ?_, ?_, ?_⟩
  · intro ha hz
    rw [hcommon, hc2, if_pos (jsArrayFlag_of_isArray c ha), jsDims_of_zero c hz]
  · intro h3
    rw [hcommon, hc2, if_pos (jsArrayFlag_of_three c h3), jsDims_of_three c h3]
  · intro u hu
    simp only [columnTypeStrict, h] at hu
    by_cases hhas : mapHas em (jsToLower (stripPgCatalog t.name))
    · rw [if_pos hhas] at hu
      by_cases hf : jsArrayFlag c
      · rw [if_pos hf] at hu
        injection hu with hu
        subst hu
        have hwrap : hasTopNull
            (wrapArray (jsDims c)
              (TSType.ref (pascalCase (jsToLower (stripPgCatalog t.name))))) = false :=
          hasTopNull_wrapArray_plain _ _ rfl
        obtain ⟨h1, h2⟩ := applyNull_props c _ hwrap
        refine ⟨h1, ?_, ?_⟩
        · intro ha hz
          rw [h2, arrayDepth_wrapArray, jsDims_of_zero c hz]
          rfl
        · intro h3
          rw [h2, arrayDepth_wrapArray, jsDims_of_three c h3]
          rfl
      · rw [if_neg hf] at hu
        injection hu with hu
        subst hu
        obtain ⟨h1, h2⟩ := applyNull_props c
          (TSType.ref (pascalCase (jsToLower (stripPgCatalog t.name))))
          (hasTopNull_plain _ rfl)
        refine ⟨h1, ?_, ?_⟩
        · intro ha _
          exact absurd (jsArrayFlag_of_isArray c ha) hf
        · intro h3
          exact absurd (jsArrayFlag_of_three c h3) hf
    · rw [if_neg hhas] at hu
      cases hbase : baseTypeStrict t.name c.name (jsToLower (stripPgCatalog t.name)) with
      | error e => rw [hbase] at hu; exact absurd hu (by simp)
      | ok b =>
        rw [hbase] at hu
        injection hu with hu
        subst hu
        obtain ⟨h1, h2⟩ := mapped_shape_props c b (baseTypeStrict_plain _ _ _ _ hbase)
        refine ⟨h1, ?_, ?_⟩
        · intro ha hz
          rw [h2, if_pos (jsArrayFlag_of_isArray c ha), jsDims_of_zero c hz]
        · intro h3
          rw [h2, if_pos (jsArrayFlag_of_three c h3), jsDims_of_three c h3]

/-- C6 counterexample: a nullable column with **no** type descriptor maps to
bare `any` with no null-marker alternative, though `notNull` is false. -/
theorem C6_nullability_array_cex :
    columnTypeCommon (some ⟨"c", false, false, 0, none⟩) = TSType.any ∧
    hasTopNull (columnTypeCommon (some ⟨"c", false, false, 0, none⟩)) = false ∧
    (⟨"c", false, false, 0, none⟩ : Column).notNull = false :=
  ⟨rfl, rfl, rfl⟩

/-- Witness for C6: a nullable single-dimension `text[]` column. -/
theorem C6_nullability_array_witness :
    hasTopNull (columnTypeCommon (some ⟨"x", false, true, 0, some ⟨"text"⟩⟩)) = true ∧
    arrayDepth (stripTopNull
      (columnTypeCommon (some ⟨"x", false, true, 0, some ⟨"text"⟩⟩))) = 1 ∧
    arrayDepth (stripTopNull
      (columnTypeCommon (some ⟨"y", true, false, 3, some ⟨"int8"⟩⟩))) = 3 := by
  have h1 := C6_nullability_array ⟨"x", false, true, 0, some ⟨"text"⟩⟩ ⟨"text"⟩ [] rfl
  have h2 := C6_nullability_array ⟨"y", true, false, 3, some ⟨"int8"⟩⟩ ⟨"int8"⟩ [] rfl
  exact ⟨h1.1.trans (by decide), h1.2.1 rfl rfl, h2.2.2.1 rfl⟩

/-! ### Totality of the permissive mappers, errors of the strict mapper -/

theorem strictGeoError_contains (o : String) : strContains (strictGeoError o) o := by
  unfold strictGeoError
  exact strContains_append_left (strContains_append_right (strContains_refl o) _) _

theorem strictDefaultError_contains_type (o cn : String) :
    strContains (strictDefaultError o cn) o := by
  unfold strictDefaultError
  apply strContains_append_left
  apply strContains_append_left
  apply strContains_append_left
  apply strContains_append_left
  apply strContains_append_left
  apply strContains_append_left
  apply strContains_append_left
  apply strContains_append_left
  apply strContains_append_left
  exact strContains_append_right (strContains_refl o) _

theorem strictDefaultError_contains_col (o cn : String) :
    strContains (strictDefaultError o cn) (if cn = "" then "unknown" else cn) := by
  unfold strictDefaultError
  apply strContains_append_left
  apply strContains_append_left
  apply strContains_append_left
  apply strContains_append_left
  apply strContains_append_left
  apply strContains_append_left
  apply strContains_append_left
  exact strContains_append_right (strContains_refl _) _

theorem baseTypeStrict_error_contains (o cn n e : String)
    (h : baseTypeStrict o cn n = Except.error e) :
    strContains e o ∧
    (n ∉ strictGeoTypes → strContains e (if cn = "" then "unknown" else cn)) := by
  unfold baseTypeStrict at h
  repeat' split at h
  all_goals cases h
  · rename_i hgeo
    exact ⟨strictGeoError_contains o, fun hn => absurd hgeo hn⟩
  · exact ⟨strictDefaultError_contains_type o cn,
      fun _ => strictDefaultError_contains_col o cn⟩

/-- **C7** (amended): the permissive mappers are total, and absent or
untyped columns map to `any` in **every** variant, the strict one included;
for a column whose present type the strict variant has not classified, it
raises an error containing the original type name, and — except in the
geometric-type branch — also the column name (`"unknown"` when empty). -/
theorem C7_type_mapper_strictness (em : JsMap EnumDef) (c : Column) (t : PgType) :
    (columnTypeStrict em none = Except.ok TSType.any) ∧
    (c.typ = none → columnTypeStrict em (some c) = Except.ok TSType.any) ∧
    (columnTypeCommon none = TSType.any) ∧
    (c.typ = none → columnTypeCommon (some c) = TSType.any) ∧
    (columnTypeBunSqlite none = TSType.any) ∧
    (c.typ = none → columnTypeBunSqlite (some c) = TSType.any) ∧
    (c.typ = some t →
      (∃ u, columnTypeStrict em (some c) = Except.ok u) ∨
      (∃ e, columnTypeStrict em (some c) = Except.error e ∧
        strContains e t.name ∧
        (jsToLower (stripPgCatalog t.name) ∉ strictGeoTypes →
          strContains e (if c.name = "" then "unknown" else c.name)))) := by
  refine ⟨rfl, ?_, rfl, ?_, rfl, ?_, ?_⟩
  · intro h
    simp only [columnTypeStrict, h]
  · intro h
    simp only [columnTypeCommon, h]
  · intro h
    simp only [columnTypeBunSqlite, h]
  · intro h
    simp only [columnTypeStrict, h]
    by_cases hhas : mapHas em (jsToLower (stripPgCatalog t.name))
    · rw [if_pos hhas]
      by_cases hf : jsArrayFlag c
      · rw [if_pos hf]
        exact Or.inl ⟨_, rfl⟩
      · rw [if_neg hf]
        exact Or.inl ⟨_, rfl⟩
    · rw [if_neg hhas]
      cases hbase : baseTypeStrict t.name c.name (jsToLower (stripPgCatalog t.name)) with
      | ok b => exact Or.inl ⟨_, rfl⟩
      | error e =>
        obtain ⟨h1, h2⟩ := baseTypeStrict_error_contains _ _ _ _ hbase
        exact Or.inr ⟨e, rfl, h1, h2⟩

set_option maxRecDepth 8000 in
/-- C7 counterexample: the strict variant maps an absent column and an
untyped column to `any` instead of raising, and the geometric-type error it
raises does not name the column. -/
theorem C7_type_mapper_strictness_cex :
    columnTypeStrict [] none = Except.ok TSType.any ∧
    columnTypeStrict [] (some ⟨"c", false, false, 0, none⟩) = Except.ok TSType.any ∧
    columnTypeStrict [] (some ⟨"zzcol", true, false, 0, some ⟨"point"⟩⟩) =
      Except.error (strictGeoError "point") ∧
    ¬ strContains (strictGeoError "point") "zzcol" :=
  ⟨rfl, rfl, rfl, by decide⟩

/-- Witness for C7 at an unclassified type name. -/
theorem C7_type_mapper_strictness_witness :
    columnTypeStrict [] none = Except.ok TSType.any ∧
    ((∃ u, columnTypeStrict []
        (some ⟨"g", true, false, 0, some ⟨"madeup_type"⟩⟩) = Except.ok u) ∨
      (∃ e, columnTypeStrict []
          (some ⟨"g", true, false, 0, some ⟨"madeup_type"⟩⟩) = Except.error e ∧
        strContains e "madeup_type" ∧
        (jsToLower (stripPgCatalog "madeup_type") ∉ strictGeoTypes →
          strContains e (if "g" = "" then "unknown" else "g")))) := by
  have h := C7_type_mapper_strictness []
    ⟨"g", true, false, 0, some ⟨"madeup_type"⟩⟩ ⟨"madeup_type"⟩
  exact ⟨h.1, h.2.2.2.2.2.2 rfl⟩

/-! ### The 64-bit-integer accessor conversion -/

/-- The claim's reading of C10: the `pg_catalog.` qualifier stripped
**case-insensitively** before the 64-bit-integer membership test (given here
only to state the counterexample; `isBigIntType` is the source's own
case-sensitive test). -/
def claimStripPgCatalogCI (s : String) : String :=
  if "pg_catalog.".toList <+: (jsToLower s).toList then
    String.mk (s.toList.drop 11)
  else s

/-- The claim's column classification under the case-insensitive strip. -/
def claimBigIntCI (c : Column) : Bool :=
  match c.typ with
  | none => false
  | some t => BIGINT_TYPES.contains (jsToLower (claimStripPgCatalogCI t.name))

/-- C10 counterexample: for type name `"PG_CATALOG.int8"` the claim's
case-insensitive strip classifies the column as 64-bit integer and demands
a `Number(row[0])` accessor, but `isBigIntType` strips case-sensitively, so
the emitted accessor is the bare `row[0]`. -/
theorem C10_bigint_accessor_cex :
    claimBigIntCI ⟨"c", true, false, 0, some ⟨"PG_CATALOG.int8"⟩⟩ = true ∧
    isBigIntType (some ⟨"c", true, false, 0, some ⟨"PG_CATALOG.int8"⟩⟩) = false ∧
    createRowAccessExpression ⟨"c", true, false, 0, some ⟨"PG_CATALOG.int8"⟩⟩ 0 =
      RowAccessExpr.elementAccess "row" 0 := by
  decide

/-- **C10** (amended): with the `pg_catalog.` prefix stripped
case-sensitively (only the remaining name is compared case-insensitively
against int8/bigint/bigserial/serial8), a 64-bit-integer column's accessor
applies `Number(row[i])`, guarded by a `=== null` conditional when the
column is nullable; every other column is accessed as a bare `row[i]`. -/
theorem C10_bigint_accessor (c : Column) (i : Nat) :
    (isBigIntType (some c) = true ↔
      ∃ t, c.typ = some t ∧ t.name ≠ "" ∧
        jsToLower (stripPgCatalog t.name) ∈ BIGINT_TYPES) ∧
    (isBigIntType (some c) = false →
      createRowAccessExpression c i = RowAccessExpr.elementAccess "row" i) ∧
    (isBigIntType (some c) = true → c.notNull = true →
      createRowAccessExpression c i =
        RowAccessExpr.numberCall (RowAccessExpr.elementAccess "row" i)) ∧
    (isBigIntType (some c) = true → c.notNull = false →
      createRowAccessExpression c i =
        RowAccessExpr.condNullGuard (RowAccessExpr.elementAccess "row" i)
          (RowAccessExpr.numberCall (RowAccessExpr.elementAccess "row" i))) := by
  refine ⟨?_, ?_, ?_, ?_⟩
  · cases ht : c.typ with
    | none => simp [isBigIntType, ht]
    | some t =>
      by_cases he : t.name = ""
      · simp [isBigIntType, ht, he]
      · simp [isBigIntType, ht, he, List.contains, List.elem_iff]
  · intro h
    simp [createRowAccessExpression, h]
  · intro h hn
    simp [createRowAccessExpression, h, hn]
  · intro h hn
    simp [createRowAccessExpression, h, hn]

/-- Witness for C10: a nullable `pg_catalog.INT8` column gets the guarded
conversion. -/
theorem C10_bigint_accessor_witness :
    isBigIntType (some ⟨"id", false, false, 0, some ⟨"pg_catalog.INT8"⟩⟩) = true ∧
    createRowAccessExpression ⟨"id", false, false, 0, some ⟨"pg_catalog.INT8"⟩⟩ 2 =
      RowAccessExpr.condNullGuard (RowAccessExpr.elementAccess "row" 2)
        (RowAccessExpr.numberCall (RowAccessExpr.elementAccess "row" 2)) := by
  have h := C10_bigint_accessor ⟨"id", false, false, 0, some ⟨"pg_catalog.INT8"⟩⟩ 2
  exact ⟨by decide, h.2.2.2 (by decide) rfl⟩

/-! ### The `:one` zero/one/many guard -/

/-- **C1** (amended): the `:one` bodies of the common driver, the bun-sqlite
driver and the positional postgres.js driver return the null-equivalent
whenever the row count differs from one, and the single (mapped) row for a
one-row result; the tagged-template variant emits `return rows[0] ?? null`
with no length guard, so a multi-row result yields its **first** row, while
an empty or null first row still yields null.  No shape raises. -/
theorem C1_one_guard {α β : Type} (mapRow : α → β) (rows : List (Option α)) :
    (rows.length ≠ 1 →
      oneDeclCommonSem mapRow rows = none ∧
      oneDeclBunSqliteSem mapRow rows = none ∧
      oneDeclPostgresSem rows = none) ∧
    (∀ r, rows = [some r] →
      oneDeclCommonSem mapRow rows = some (mapRow r) ∧
      oneDeclBunSqliteSem mapRow rows = some (mapRow r) ∧
      oneDeclPostgresSem rows = some r) ∧
    (∀ r rs, rows = some r :: rs → oneDeclTaggedSem rows = some r) ∧
    (rows = [] → oneDeclTaggedSem rows = none) ∧
    (∀ rs, rows = none :: rs → oneDeclTaggedSem rows = none) := by
  refine ⟨?_, ?_, ?_, ?_, ?_⟩
  · intro h
    exact ⟨by simp [oneDeclCommonSem, h], by simp [oneDeclBunSqliteSem, h],
      by simp [oneDeclPostgresSem, h]⟩
  · intro r h
    subst h
    exact ⟨rfl, rfl, rfl⟩
  · intro r rs h
    subst h
    rfl
  · intro h
    subst h
    rfl
  · intro rs h
    subst h
    rfl

/-- C1 counterexample: on a two-row result the tagged-template `:one` body
returns the first row, not the null-equivalent. -/
theorem C1_one_guard_cex :
    ([some 1, some 2] : List (Option Nat)).length = 2 ∧
    oneDeclTaggedSem ([some 1, some 2] : List (Option Nat)) = some 1 ∧
    (some (1 : Nat) ≠ none) := by
  decide

/-- Witness for C1 on a two-row and a one-row result. -/
theorem C1_one_guard_witness :
    oneDeclCommonSem Nat.succ [some 3, some 4] = none ∧
    oneDeclPostgresSem ([some 3, some 4] : List (Option Nat)) = none ∧
    oneDeclCommonSem Nat.succ [some 3] = some 4 ∧
    oneDeclTaggedSem ([some 3, some 4] : List (Option Nat)) = some 3 := by
  have h2 := C1_one_guard Nat.succ ([some 3, some 4] : List (Option Nat))
  have h1 := C1_one_guard Nat.succ ([some 3] : List (Option Nat))
  obtain ⟨hc, _, hp⟩ := h2.1 (by decide)
  exact ⟨hc, hp, (h1.2.1 3 rfl).1, h2.2.2.1 3 [some 4] rfl⟩

/-! ### Result interfaces for `:exec` queries -/

/-- C2 counterexample: an `:exec` query with a nonempty column list gets a
`FooRow` result interface emitted all the same. -/
theorem C2_exec_row_interface_cex :
    codegenQuery [] "f.sql" []
        ⟨"f.sql", "Foo", ":exec", "DELETE FROM t", [],
          [⟨"id", true, false, 0, some ⟨"text"⟩⟩]⟩ =
      Except.ok ([TSNode.interfaceDecl "FooRow" [("id", TSType.str)],
        TSNode.funcDecl "exec" "foo"], []) ∧
    TSNode.interfaceDecl "FooRow" [("id", TSType.str)] ∈
      [TSNode.interfaceDecl "FooRow" [("id", TSType.str)],
        TSNode.funcDecl "exec" "foo"] := by
  exact ⟨by decide, by decide⟩

/-- **C2** (amended): the result interface `<QueryName>Row` is emitted for
**every** query with a nonempty column list, the `:exec` command kind
included — the `:exec` function body simply never references it. -/
theorem C2_exec_emits_row_interface (em : JsMap EnumDef) (fileName : String)
    (fe : List String) (q : Query) (nodes : List TSNode) (fe' : List String)
    (_hcmd : q.cmd = ":exec") (hcols : q.columns ≠ [])
    (h : codegenQuery em fileName fe q = Except.ok (nodes, fe')) :
    ∃ fields, TSNode.interfaceDecl (q.name ++ "Row") fields ∈ nodes := by
  unfold codegenQuery at h
  split at h
  · exact absurd h (by simp)
  · split at h
    · exact absurd h (by simp)
    · split at h
      · exact absurd h (by simp)
      · rename_i x1 argNodes fe1 harg x2 colNodes fe2 hcol x3 cmdNodes hcmdStep
        rw [Except.ok.injEq, Prod.mk.injEq] at h
        obtain ⟨hn, _⟩ := h
        have hlen : 0 < q.columns.length := List.length_pos.mpr hcols
        unfold colInterfaceStep at hcol
        rw [if_pos hlen] at hcol
        split at hcol
        · exact absurd hcol (by simp)
        · split at hcol
          · rename_i fields hcf
            rw [Except.ok.injEq, Prod.mk.injEq] at hcol
            obtain ⟨hcn, _⟩ := hcol
            refine ⟨fields, ?_⟩
            rw [← hn, ← hcn]
            simp
          · exact absurd hcol (by simp)

/-- Witness for C2 at a concrete `:exec` query with one column. -/
theorem C2_exec_emits_row_interface_witness :
    ∃ fields, TSNode.interfaceDecl "BarRow" fields ∈
      [TSNode.interfaceDecl "BarRow" [("n", TSType.num)],
        TSNode.funcDecl "exec" "bar"] :=
  C2_exec_emits_row_interface [] "g.sql" []
    ⟨"g.sql", "Bar", ":exec", "DELETE FROM u", [],
      [⟨"n", true, false, 0, some ⟨"int4"⟩⟩]⟩
    [TSNode.interfaceDecl "BarRow" [("n", TSType.num)],
      TSNode.funcDecl "exec" "bar"] []
    rfl (by decide) (by decide)

/-! ### The enum catalog builder -/

theorem enumRegistrations_mem (input : GenerateRequest) (s : Schema) (e : EnumDef)
    (hs : s ∈ (match input.catalog with | some c => c.schemas | none => []))
    (hsys1 : s.name ≠ "pg_catalog") (hsys2 : s.name ≠ "information_schema")
    (he : e ∈ s.enums) :
    (e.name, e) ∈ enumRegistrations input ∧
    (s.name ≠ (match input.catalog with
        | some c => c.defaultSchema | none => "public") →
      (s.name ++ "." ++ e.name, e) ∈ enumRegistrations input) := by
  unfold enumRegistrations
  constructor
  · apply List.mem_flatMap.mpr
    refine ⟨s, hs, ?_⟩
    rw [if_neg (not_or.mpr ⟨hsys1, hsys2⟩)]
    apply List.mem_flatMap.mpr
    exact ⟨e, he, List.mem_cons_self _ _⟩
  · intro hd
    apply List.mem_flatMap.mpr
    refine ⟨s, hs, ?_⟩
    rw [if_neg (not_or.mpr ⟨hsys1, hsys2⟩)]
    apply List.mem_flatMap.mpr
    refine ⟨e, he, ?_⟩
    apply List.mem_cons.mpr
    right
    rw [if_pos hd]
    exact List.mem_singleton.mpr rfl

theorem mapGet_ne_none_of_mem_regs (input : GenerateRequest) (k : String)
    (v : EnumDef) (h : (k, v) ∈ enumRegistrations input) :
    mapGet (buildEnumMap input) k ≠ none := by
  rw [buildEnumMap_get]
  intro hnone
  rw [Option.map_eq_none'] at hnone
  rw [List.find?_eq_none] at hnone
  exact absurd (by simp : decide ((k, v).1 = k) = true)
    (by simpa using hnone (k, v) (List.mem_reverse.mpr h))

/-- **C3** (amended): the enum catalog builder registers each enum of every
non-system schema under its bare name, and additionally under
`schema.name` when its schema is not the default; a key written more than
once (two schemas sharing a bare enum name) resolves to the
**last**-registered definition (`Map.set` overwrites); an empty catalog
yields an empty map. -/
theorem C3_enum_map (input : GenerateRequest) (k : String) :
    (mapGet (buildEnumMap input) k =
      ((enumRegistrations input).reverse.find? (fun p => p.1 = k)).map
        (fun p => p.2)) ∧
    (∀ s ∈ (match input.catalog with | some c => c.schemas | none => []),
      s.name ≠ "pg_catalog" → s.name ≠ "information_schema" →
      ∀ e ∈ s.enums,
        mapGet (buildEnumMap input) e.name ≠ none ∧
        (s.name ≠ (match input.catalog with
            | some c => c.defaultSchema | none => "public") →
          mapGet (buildEnumMap input) (s.name ++ "." ++ e.name) ≠ none)) ∧
    (input.catalog = none → buildEnumMap input = []) ∧
    (∀ c, input.catalog = some c → c.schemas = [] → buildEnumMap input = []) := by
  refine ⟨buildEnumMap_get input k, ?_, ?_, ?_⟩
  · intro s hs h1 h2 e he
    obtain ⟨hbare, hqual⟩ := enumRegistrations_mem input s e hs h1 h2 he
    exact ⟨mapGet_ne_none_of_mem_regs input e.name e hbare,
      fun hd => mapGet_ne_none_of_mem_regs input _ e (hqual hd)⟩
  · intro h
    simp [buildEnumMap, h]
  · intro c h hnil
    simp [buildEnumMap, h, hnil]

/-- C3 counterexample: two non-default schemas each define enum `status`;
the bare key resolves to the **second** (last-registered) definition, not
the first. -/
theorem C3_enum_map_cex :
    mapGet (buildEnumMap ⟨some ⟨"public",
        [⟨"s1", [⟨"status", ["a1"]⟩]⟩, ⟨"s2", [⟨"status", ["b1"]⟩]⟩]⟩, []⟩)
      "status" = some ⟨"status", ["b1"]⟩ ∧
    ((⟨"status", ["b1"]⟩ : EnumDef) ≠ ⟨"status", ["a1"]⟩) ∧
    mapGet (buildEnumMap ⟨some ⟨"public",
        [⟨"s1", [⟨"status", ["a1"]⟩]⟩, ⟨"s2", [⟨"status", ["b1"]⟩]⟩]⟩, []⟩)
      "s1.status" = some ⟨"status", ["a1"]⟩ := by
  decide

/-- Witness for C3 at a two-schema catalog. -/
theorem C3_enum_map_witness :
    mapGet (buildEnumMap ⟨some ⟨"public",
        [⟨"other", [⟨"mood", ["ok"]⟩]⟩]⟩, []⟩) "mood" ≠ none ∧
    mapGet (buildEnumMap ⟨some ⟨"public",
        [⟨"other", [⟨"mood", ["ok"]⟩]⟩]⟩, []⟩) "other.mood" ≠ none ∧
    buildEnumMap ⟨none, []⟩ = [] := by
  have h := C3_enum_map ⟨some ⟨"public", [⟨"other", [⟨"mood", ["ok"]⟩]⟩]⟩, []⟩ "mood"
  have h0 := C3_enum_map ⟨none, []⟩ "x"
  obtain ⟨hb, hq⟩ := h.2.1 ⟨"other", [⟨"mood", ["ok"]⟩]⟩ (by decide) (by decide)
    (by decide) ⟨"mood", ["ok"]⟩ (by decide)
  exact ⟨hb, hq (by decide), h0.2.2.1 rfl⟩

/-! ### Error propagation through `codegen` -/

theorem mapExcept_error_of_mem (f : α → Except String β) (l : List α) (x : α)
    (hx : x ∈ l) (e : String) (hfx : f x = Except.error e) :
    ∃ e', mapExcept f l = Except.error e' := by
  induction l with
  | nil => cases hx
  | cons y ys ih =>
    unfold mapExcept
    rcases List.mem_cons.mp hx with h | h
    · subst h
      rw [hfx]
      exact ⟨e, rfl⟩
    · cases hfy : f y with
      | error e2 => exact ⟨e2, rfl⟩
      | ok v =>
        obtain ⟨e', he'⟩ := ih h
        rw [he']
        exact ⟨e', rfl⟩

theorem mapExcept_ok_mem (f : α → Except String β) : ∀ (l : List α) (out : List β),
    mapExcept f l = Except.ok out → ∀ y ∈ out, ∃ x ∈ l, f x = Except.ok y := by
  intro l
  induction l with
  | nil =>
    intro out h y hy
    injection h with h
    subst h
    cases hy
  | cons z zs ih =>
    intro out h y hy
    unfold mapExcept at h
    cases hfz : f z with
    | error e => rw [hfz] at h; exact absurd h (by simp)
    | ok v =>
      rw [hfz] at h
      cases hm : mapExcept f zs with
      | error e => rw [hm] at h; exact absurd h (by simp)
      | ok ys =>
        rw [hm] at h
        injection h with h
        subst h
        rcases List.mem_cons.mp hy with hv | hv
        · subst hv
          exact ⟨z, List.mem_cons_self _ _, hfz⟩
        · obtain ⟨x, hxm, hfx⟩ := ih ys hm y hv
          exact ⟨x, List.mem_cons_of_mem _ hxm, hfx⟩

/-- **C9** (amended): an error thrown while building the argument (or
result) interface is re-raised wrapped with the query's name and filename;
the `:execlastid` unsupported-operation error is raised outside the `try`
wrappers and so propagates with its bare message; any per-file error makes
the whole `codegen` run return an error, so no partial file set is
produced.  (No error is ever swallowed: every `catch` re-throws.) -/
theorem C9_error_propagation (em : JsMap EnumDef) (render : TSNode → String)
    (input : GenerateRequest) (fileName : String) (fe : List String)
    (q : Query) (e : String) :
    (q.params.length > 0 →
      assertUniqueNames "argument" q.name fileName
        (q.params.enum.map (fun ip => argName ip.1 ip.2.column)) = Except.ok () →
      argFieldsOf em q.params = Except.error e →
      codegenQuery em fileName fe q =
        Except.error (wrapQueryError q.name fileName e)) ∧
    (q.cmd = ":execlastid" → q.params = [] → q.columns = [] →
      codegenQuery em fileName fe q =
        Except.error "postgres driver does not support :execlastid") ∧
    (∀ g ∈ groupByFilename input.queries,
      codegenFile (buildEnumMap input) render g.1 g.2 = Except.error e →
      ∃ e', codegen render input = Except.error e') := by
  refine ⟨?_, ?_, ?_⟩
  · intro hp hu hf
    have harg : argInterfaceStep em fileName fe q =
        Except.error (wrapQueryError q.name fileName e) := by
      unfold argInterfaceStep
      rw [if_pos hp, hu, hf]
    unfold codegenQuery
    rw [harg]
  · intro hcmd hp hc
    unfold codegenQuery argInterfaceStep colInterfaceStep cmdStep
    rw [hp, hc, hcmd]
    simp
  · intro g hg hfile
    exact mapExcept_error_of_mem _ _ g hg e hfile

/-- Witness for C9: a wrapped unclassified-type error, the bare
`:execlastid` error, and the whole-run abort. -/
theorem C9_error_propagation_witness :
    codegenQuery [] "geo.sql" []
        ⟨"geo.sql", "GetPoint", ":one", "SELECT p",
          [⟨some ⟨"p", true, false, 0, some ⟨"point"⟩⟩⟩], []⟩ =
      Except.error (wrapQueryError "GetPoint" "geo.sql" (strictGeoError "point")) ∧
    codegenQuery [] "a.sql" []
        ⟨"a.sql", "CreateAuthor", ":execlastid", "INSERT", [], []⟩ =
      Except.error "postgres driver does not support :execlastid" ∧
    (∃ e', codegen (fun _ => "")
        ⟨none, [⟨"a.sql", "CreateAuthor", ":execlastid", "INSERT", [], []⟩]⟩ =
      Except.error e') := by
  have h1 := C9_error_propagation [] (fun _ => "")
    ⟨none, [⟨"a.sql", "CreateAuthor", ":execlastid", "INSERT", [], []⟩]⟩
    "geo.sql" []
    ⟨"geo.sql", "GetPoint", ":one", "SELECT p",
      [⟨some ⟨"p", true, false, 0, some ⟨"point"⟩⟩⟩], []⟩
    (strictGeoError "point")
  have h2 := C9_error_propagation [] (fun _ => "")
    ⟨none, [⟨"a.sql", "CreateAuthor", ":execlastid", "INSERT", [], []⟩]⟩
    "a.sql" []
    ⟨"a.sql", "CreateAuthor", ":execlastid", "INSERT", [], []⟩
    "postgres driver does not support :execlastid"
  refine ⟨h1.1 (by decide) (by decide) (by decide), h2.2.1 rfl rfl rfl, ?_⟩
  exact h2.2.2 ("a.sql", [⟨"a.sql", "CreateAuthor", ":execlastid", "INSERT", [], []⟩])
    (by decide) (by decide)

/-- C9 counterexample: the `:execlastid` error aborts the run but is **not**
wrapped with the query name or filename. -/
theorem C9_error_propagation_cex :
    codegen (fun _ => "")
        ⟨none, [⟨"a.sql", "CreateAuthor", ":execlastid", "INSERT", [], []⟩]⟩ =
      Except.error "postgres driver does not support :execlastid" ∧
    ¬ strContains "postgres driver does not support :execlastid" "CreateAuthor" ∧
    ¬ strContains "postgres driver does not support :execlastid" "a.sql" := by
  exact ⟨by decide, by decide, by decide⟩

/-! ### Output file names and the generated header -/

theorem printNode_starts (render : TSNode → String) (nodes : List TSNode) :
    strStarts (printNode render nodes) fileHeader := by
  unfold printNode
  suffices h : ∀ (acc : String), strStarts
      (nodes.foldl (fun output node => output ++ render node ++ "\n\n") acc) acc from
    h fileHeader
  induction nodes with
  | nil => intro acc; exact List.prefix_refl _
  | cons n ns ih =>
    intro acc
    simp only [List.foldl_cons]
    exact strStarts_trans
      (strStarts_trans (strStarts_append acc (render n))
        (strStarts_append (acc ++ render n) "\n\n"))
      (ih _)

theorem codegenFile_ok (em : JsMap EnumDef) (render : TSNode → String)
    (fileName : String) (qs : List Query) (f : FileOut)
    (h : codegenFile em render fileName qs = Except.ok f) :
    f.name = outputFileName fileName ∧ strStarts f.contents fileHeader := by
  unfold codegenFile at h
  split at h
  · exact absurd h (by simp)
  · injection h with h
    subst h
    exact ⟨rfl, printNode_starts _ _⟩

/-- **C8** (amended): every emitted file's content begins with the fixed
generated-file header, and its name is the query filename with its **first
dot replaced by an underscore** and `.ts` appended (not with the extension
replaced). -/
theorem C8_output_files (render : TSNode → String) (input : GenerateRequest)
    (files : List FileOut) (h : codegen render input = Except.ok files) :
    ∀ f ∈ files, strStarts f.contents fileHeader ∧
      ∃ g ∈ groupByFilename input.queries, f.name = outputFileName g.1 := by
  intro f hf
  obtain ⟨g, hg, hfg⟩ := mapExcept_ok_mem _ _ _ h f hf
  obtain ⟨hname, hstart⟩ := codegenFile_ok _ _ _ _ _ hfg
  exact ⟨hstart, g, hg, hname⟩

/-- C8 counterexample: for source file `authors.sql` the emitted file is
named `authors_sql.ts` (first dot becomes an underscore, `.ts` appended),
not `authors.ts` as replacing the extension would give. -/
theorem C8_output_files_cex :
    codegen (fun _ => "")
        ⟨none, [⟨"authors.sql", "GetAuthor", ":one", "SELECT 1", [],
          [⟨"id", true, false, 0, some ⟨"text"⟩⟩]⟩]⟩ =
      Except.ok [⟨"authors_sql.ts",
        "// Code generated by sqlc. DO NOT EDIT.\n\n\n\n\n\n\n\n"⟩] ∧
    "authors_sql.ts" ≠ "authors.ts" := by
  exact ⟨by decide, by decide⟩

/-- Witness for C8 at a one-query request. -/
theorem C8_output_files_witness :
    strStarts ("// Code generated by sqlc. DO NOT EDIT.\n\n\n\n\n\n\n\n" : String)
      fileHeader ∧
    ∃ g ∈ groupByFilename [⟨"authors.sql", "GetAuthor", ":one", "SELECT 1", [],
        [⟨"id", true, false, 0, some ⟨"text"⟩⟩]⟩],
      ("authors_sql.ts" : String) = outputFileName g.1 := by
  have h := C8_output_files (fun _ => "")
    ⟨none, [⟨"authors.sql", "GetAuthor", ":one", "SELECT 1", [],
      [⟨"id", true, false, 0, some ⟨"text"⟩⟩]⟩]⟩
    [⟨"authors_sql.ts", "// Code generated by sqlc. DO NOT EDIT.\n\n\n\n\n\n\n\n"⟩]
    (by decide)
  exact h ⟨"authors_sql.ts", "// Code generated by sqlc. DO NOT EDIT.\n\n\n\n\n\n\n\n"⟩
    (by decide)

end SqlcTs
